import Mathlib

/-!
# otel-golang: the postal-code gateway and the temperature lookup pipeline

A shallow embedding of the two Go services of the repository:

* `cepservice/internal/infra/web/handler.go` (the gateway, `HandleZipcode`),
* `tempservice/internal/infra/web/handler.go` (the pipeline, `HandleTemperature`).

Conventions of the embedding.

* Go strings and byte slices are Lean `String`s (sequences of Unicode scalar values).
* A Go `error` is an `Option Error` next to the result value, as in the source
  (`none` is `nil`); library calls whose result the handlers only test for failure are
  `Except Error _`.
* Everything that leaves the process (the JSON decoder of the standard library, request
  construction, the HTTP round trip, reading a body, query escaping) is a field of a
  `World` record; the handlers are functions of the world and of the request.
* A handler returns the final state of its `http.ResponseWriter` together with the list
  of calls it made, in order (`Event`).  Tracing spans and `slog` output have no influence
  on control flow and are left out.
* `float64` is modelled exactly: a finite value is `mant * 2 ^ exp` with a sign, and every
  arithmetic operation rounds to nearest, ties to even, at 53 bits.  Go lets a compiler fuse
  `x*y + z` into one rounding, so `ConvertCelsiusToFahrenheit` takes a flag for it and the
  theorems hold for both values of the flag.
-/

/-- A Go `error` value, identified by its message. -/
abbrev Error := String

/-! ## `regexp`: the fragment used by `isValidZipcode` -/

namespace regexp

/-- Regular expressions built from `^`, `$`, `\d`, concatenation and `r{n}`. -/
inductive Regexp where
  | beginText : Regexp
  | endText : Regexp
  | digit : Regexp
  | cat : Regexp → Regexp → Regexp
  | rep : Regexp → Nat → Regexp

/-- The Perl class `\d` of RE2: the ASCII digits only. -/
def isDigit (c : Char) : Bool := decide ('0' ≤ c) && decide (c ≤ '9')

/-- Run a matcher `n` times in sequence, then the continuation. -/
def repK (m : Nat → List Char → (Nat → List Char → Bool) → Bool) :
    Nat → Nat → List Char → (Nat → List Char → Bool) → Bool
  | 0, pos, s, k => k pos s
  | n + 1, pos, s, k => m pos s (fun p t => repK m n p t k)

/-- Backtracking matcher in continuation-passing style.  `pos` is the number of characters
of the text before the current position and `s` the rest of the text.  Without the `m`
flag `^` holds only at position 0 and `$` only at the end of the text. -/
def Regexp.matchK : Regexp → Nat → List Char → (Nat → List Char → Bool) → Bool
  | .beginText, pos, s, k => pos == 0 && k pos s
  | .endText, pos, s, k => s.isEmpty && k pos s
  | .digit, pos, s, k =>
    match s with
    | [] => false
    | c :: cs => isDigit c && k (pos + 1) cs
  | .cat a b, pos, s, k => a.matchK pos s (fun p t => b.matchK p t k)
  | .rep r n, pos, s, k => repK r.matchK n pos s k

/-- The method `(*Regexp).MatchString`: the text contains a match, starting anywhere. -/
def Regexp.MatchString (re : Regexp) (s : String) : Bool :=
  (List.range (s.length + 1)).any fun i => re.matchK i (s.toList.drop i) (fun _ _ => true)

end regexp

/-! ## `strings.Trim` -/

namespace strings

/-- The function `strings.Trim(s, cutset)`: trailing characters of the cutset are removed
first, then leading ones. -/
def Trim (s cutset : String) : String :=
  if s = "" ∨ cutset = "" then s
  else
    String.mk
      (((s.toList.rdropWhile fun c => cutset.toList.contains c)).dropWhile
        fun c => cutset.toList.contains c)

end strings

/-! ## `net/http`: response writer and client response -/

namespace http

def StatusOK : Nat := 200
def StatusNotFound : Nat := 404
def StatusUnprocessableEntity : Nat := 422
def StatusInternalServerError : Nat := 500

/-- State of an `http.ResponseWriter`: the header map, the status line once it has been
written, and the body written so far. -/
structure ResponseWriter where
  header : List (String × String) := []
  status : Option Nat := none
  body : String := ""
  deriving DecidableEq, Repr

namespace ResponseWriter

/-- Method `w.Header().Set(key, value)`. -/
def HeaderSet (w : ResponseWriter) (key value : String) : ResponseWriter :=
  { w with header := (w.header.filter fun kv => kv.1 != key) ++ [(key, value)] }

/-- Method `w.WriteHeader(code)`: only the first call has an effect. -/
def WriteHeader (w : ResponseWriter) (code : Nat) : ResponseWriter :=
  match w.status with
  | some _ => w
  | none => { w with status := some code }

/-- Method `w.Write(b)`: writes the status line with 200 first if none was written. -/
def Write (w : ResponseWriter) (b : String) : ResponseWriter :=
  let w1 := w.WriteHeader StatusOK
  { w1 with body := w1.body ++ b }

/-- The status the client sees: 200 when the handler never wrote one. -/
def statusCode (w : ResponseWriter) : Nat := w.status.getD StatusOK

end ResponseWriter

/-- What `client.Do` hands back on success: the status code of the upstream answer and
what `io.ReadAll(resp.Body)` will return for its body (data read, and the read error). -/
structure Response where
  StatusCode : Nat
  Body : String × Option Error
  deriving DecidableEq, Repr

/-- The function `http.Error(w, msg, code)`. -/
def Error (w : ResponseWriter) (msg : String) (code : Nat) : ResponseWriter :=
  (((w.HeaderSet "Content-Type" "text/plain; charset=utf-8").HeaderSet
    "X-Content-Type-Options" "nosniff").WriteHeader code).Write (msg ++ "\n")

end http

/-! ## `float64`: IEEE 754 binary64, round to nearest, ties to even -/

/-- Bit length with explicit fuel. -/
def bitLenAux : Nat → Nat → Nat
  | 0, _ => 0
  | fuel + 1, n => if n = 0 then 0 else bitLenAux fuel (n / 2) + 1

/-- Number of binary digits of `n` (0 for 0): the least `k` with `n < 2 ^ k`. -/
def bitLen (n : Nat) : Nat := bitLenAux n n

/-- A `float64` value.  `finite neg mant exp` is `(-1) ^ neg * mant * 2 ^ exp`; zero keeps
its sign. -/
inductive F64 where
  | finite (neg : Bool) (mant : Nat) (exp : Int) : F64
  | inf (neg : Bool) : F64
  | nan : F64
  deriving DecidableEq, Repr

namespace F64

/-- The triple denotes a value of the binary64 format: at most 53 significant bits, exponent
of the last bit at least -1074, magnitude below `2 ^ 1024`. -/
def IsFloat64 : F64 → Bool
  | finite _ m e => decide (m < 2 ^ 53) && decide (-1074 ≤ e) && decide ((bitLen m : Int) + e ≤ 1024)
  | _ => true

def isFinite : F64 → Bool
  | finite _ _ _ => true
  | _ => false

/-- Exact value of a finite float as a rational number (0 for infinities and NaN). -/
def toRat : F64 → ℚ
  | finite neg m e => (if neg then -1 else 1) * (m : ℚ) * (2 : ℚ) ^ e
  | _ => 0

/-- Round the real number `(-1) ^ neg * m * 2 ^ e` to binary64: 53 significant bits above
the subnormal range, last bit at `2 ^ -1074` inside it, ties to even, overflow to
infinity. -/
def round (neg : Bool) (m : Nat) (e : Int) : F64 :=
  let e1 : Int := max (e + (bitLen m : Int) - 53) (-1074)
  if m = 0 then finite neg 0 0
  else if e1 ≤ e then
    if (bitLen m : Int) + e > 1024 then inf neg else finite neg m e
  else
    let s := (e1 - e).toNat
    let q := m / 2 ^ s
    let r := m % 2 ^ s
    let q1 := if 2 ^ (s - 1) < r ∨ (r = 2 ^ (s - 1) ∧ q % 2 = 1) then q + 1 else q
    if (bitLen q1 : Int) + e1 > 1024 then inf neg else finite neg q1 e1

/-- The integer `(-1) ^ neg * m`. -/
def signed (neg : Bool) (m : Nat) : Int := if neg then -(m : Int) else (m : Int)

/-- Round the exact sum `(-1) ^ na * ma * 2 ^ ea + (-1) ^ nb * mb * 2 ^ eb`; an exact zero
is negative only when both terms are. -/
def addExact (na : Bool) (ma : Nat) (ea : Int) (nb : Bool) (mb : Nat) (eb : Int) : F64 :=
  let e := min ea eb
  let z : Int := signed na (ma * 2 ^ (ea - e).toNat) + signed nb (mb * 2 ^ (eb - e).toNat)
  if z = 0 then finite (na && nb) 0 0 else round (decide (z < 0)) z.natAbs e

/-- Go `x * y` on `float64`. -/
def mul : F64 → F64 → F64
  | finite na ma ea, finite nb mb eb => round (xor na nb) (ma * mb) (ea + eb)
  | finite na ma _, inf nb => if ma = 0 then nan else inf (xor na nb)
  | inf na, finite nb mb _ => if mb = 0 then nan else inf (xor na nb)
  | inf na, inf nb => inf (xor na nb)
  | _, _ => nan

/-- Go `x + y` on `float64`. -/
def add : F64 → F64 → F64
  | finite na ma ea, finite nb mb eb => addExact na ma ea nb mb eb
  | finite _ _ _, inf nb => inf nb
  | inf na, finite _ _ _ => inf na
  | inf na, inf nb => if na = nb then inf na else nan
  | _, _ => nan

/-- The fused form of `x * y + z`, one rounding of the exact result.  The Go specification
lets an implementation fuse `x*y + z`; whether it does depends on the target. -/
def fma : F64 → F64 → F64 → F64
  | finite na ma ea, finite nb mb eb, finite nc mc ec =>
    addExact (xor na nb) (ma * mb) (ea + eb) nc mc ec
  | x, y, z => add (mul x y) z

/-- The constant `1.8` as a `float64`: `0x3FFCCCCCCCCCCCCD`. -/
def c1_8 : F64 := finite false 8106479329266893 (-52)

/-- The constant `32` as a `float64`. -/
def c32 : F64 := finite false 32 0

/-- The constant `273` as a `float64`. -/
def c273 : F64 := finite false 273 0

/-- The `float64` of an integer of small magnitude. -/
def ofInt (i : Int) : F64 := finite (decide (i < 0)) i.natAbs 0

end F64

/-! ## `fmt` and `encoding/json` -/

namespace fmt

/-- The integer nearest to `num / den`, ties to even. -/
def roundHalfEven (num den : Nat) : Nat :=
  let q := num / den
  let r := num % den
  if den < 2 * r ∨ (2 * r = den ∧ q % 2 = 1) then q + 1 else q

/-- Tenths of the magnitude `m * 2 ^ e`, rounded to nearest, ties to even. -/
def tenths (m : Nat) (e : Int) : Nat :=
  if 0 ≤ e then m * 2 ^ e.toNat * 10 else roundHalfEven (m * 10) (2 ^ (-e).toNat)

/-- The rational number that the numeral `fixed1 neg n` denotes. -/
def fixed1Value (neg : Bool) (n : Nat) : ℚ := (if neg then -1 else 1) * ((n : ℚ) / 10)

/-- A sign, the integer part in decimal, a point, and one decimal digit. -/
def fixed1 (neg : Bool) (n : Nat) : String :=
  (if neg then "-" else "") ++ Nat.repr (n / 10) ++ "." ++ Nat.repr (n % 10)

/-- The call `fmt.Sprintf("%.1f", x)`: the exact binary value rounded to one decimal place,
ties to even; the sign is the sign bit. -/
def Sprintf1f : F64 → String
  | .finite neg m e => fixed1 neg (tenths m e)
  | .inf false => "+Inf"
  | .inf true => "-Inf"
  | .nan => "NaN"

end fmt

namespace json

def hexDigit (n : Nat) : Char := "0123456789abcdef".toList.getD n '0'

/-- Encoding of one character inside a JSON string, as `json.Marshal` does it (HTML
escaping on, Go 1.22 and later). -/
def escapeChar (c : Char) : String :=
  if c = '"' then "\\\""
  else if c = '\\' then "\\\\"
  else if c.toNat = 8 then "\\b"
  else if c.toNat = 12 then "\\f"
  else if c = '\n' then "\\n"
  else if c = '\r' then "\\r"
  else if c = '\t' then "\\t"
  else if c.toNat < 32 ∨ c = '<' ∨ c = '>' ∨ c = '&' then
    "\\u00" ++ String.mk [hexDigit (c.toNat / 16), hexDigit (c.toNat % 16)]
  else if c.toNat = 8232 then "\\u2028"
  else if c.toNat = 8233 then "\\u2029"
  else String.singleton c

/-- The characters of a string, each one encoded. -/
def escape : List Char → List Char
  | [] => []
  | c :: cs => (escapeChar c).toList ++ escape cs

/-- A Go string as a JSON string literal. -/
def quote (s : String) : String :=
  "\"" ++ String.mk (escape s.toList) ++ "\""

end json

/-! ## The gateway: `cepservice/internal/infra/web/handler.go` -/

namespace Cepservice

structure TemperatureInputDTO where
  Zipcode : String
  deriving DecidableEq, Repr

/-- What the gateway takes from outside the process. -/
structure World where
  /-- Value of the environment variable `URL_TEMP`. -/
  URL_TEMP : String
  /-- The call `json.NewDecoder(r.Body).Decode(&inputDto)` on a request body: the DTO as the
  decoder left it, and the error. -/
  Decode : String → TemperatureInputDTO × Option Error
  /-- The error of `http.NewRequestWithContext(ctx, "GET", url, nil)`. -/
  NewRequest : String → Option Error
  /-- The call `client.Do(req)`, by the URL of the request. -/
  Do : String → Except Error http.Response

/-- Calls made while a request is served, in order. -/
inductive Event where
  | fetchTemperatureByZipCode (zipCode : String) : Event
  | Do (url : String) : Event
  deriving DecidableEq, Repr

/-- Package variable `Host`, set by `init`. -/
def Host (world : World) : String :=
  if world.URL_TEMP = "" then "localhost" else world.URL_TEMP

/-- Package variable `URL`, set by `init`. -/
def URL (world : World) : String := "http://" ++ Host world ++ ":9090/temperature/"

/-- The pattern `^\d{8}$`. -/
def zipcodeRegexp : regexp.Regexp :=
  .cat .beginText (.cat (.rep .digit 8) .endText)

def isValidZipcode (zipCode : String) : Bool :=
  zipcodeRegexp.MatchString zipCode

def fetchTemperatureByZipCode (world : World) (zipCode : String) :
    (String × Option Error) × List Event :=
  match world.NewRequest (URL world ++ zipCode) with
  | some err => (("", some err), [])
  | none =>
    match world.Do (URL world ++ zipCode) with
    | .error err => (("", some err), [Event.Do (URL world ++ zipCode)])
    | .ok resp => (resp.Body, [Event.Do (URL world ++ zipCode)])

/-- The handler, on the body of the inbound request. -/
def HandleZipcode (world : World) (body : String) : http.ResponseWriter × List Event :=
  let w : http.ResponseWriter := {}
  match world.Decode body with
  | (_, some err) => (http.Error w err http.StatusInternalServerError, [])
  | (inputDto, none) =>
    if !isValidZipcode inputDto.Zipcode then
      (http.Error w "invalid zipcode" http.StatusUnprocessableEntity, [])
    else
      match fetchTemperatureByZipCode world inputDto.Zipcode with
      | ((_, some err), evs) =>
        (http.Error w ("\"unable to fetch temperature by zipcode\"" ++ err ++ "\"\x7d")
            http.StatusInternalServerError,
          Event.fetchTemperatureByZipCode inputDto.Zipcode :: evs)
      | ((response, none), evs) =>
        ((((w.HeaderSet "Content-Type" "application/json").WriteHeader http.StatusOK).Write
            response),
          Event.fetchTemperatureByZipCode inputDto.Zipcode :: evs)

end Cepservice

/-! ## The pipeline: `tempservice/internal/infra/web/handler.go` -/

namespace Tempservice

structure TemperatureOutputDTO where
  City : String
  Celsius : String
  Fahrenheit : String
  Kelvin : String
  deriving DecidableEq, Repr

structure ViaCEP where
  Localidade : String
  deriving DecidableEq, Repr

structure Current where
  CelsiusTemperature : F64
  FarhenheitTemperature : F64
  deriving DecidableEq, Repr

structure WeatherAPI where
  Current : Current
  deriving DecidableEq, Repr

/-- The zero value `ViaCEP{}`. -/
def ViaCEP.zero : ViaCEP := ⟨""⟩

/-- The zero value `WeatherAPI{}`. -/
def WeatherAPI.zero : WeatherAPI := ⟨⟨.finite false 0 0, .finite false 0 0⟩⟩

def viaCepApiURL : String := "http://viacep.com.br/ws/"

def weatherApiURL : String := "http://api.weatherapi.com/v1/current.json"

def apiKey : String := "bdb5695826b246b5a47230638241405"

/-- What the pipeline takes from outside the process. -/
structure World where
  /-- The error of `http.NewRequestWithContext(ctx, "GET", url, nil)`. -/
  NewRequest : String → Option Error
  /-- The call `client.Do(req)`, by the URL of the request. -/
  Do : String → Except Error http.Response
  /-- The call `json.Unmarshal(result, &viaCepData)`: the value decoded, and the error. -/
  UnmarshalViaCEP : String → ViaCEP × Option Error
  /-- The call `json.Unmarshal(result, &weather)`: the value decoded, and the error. -/
  UnmarshalWeatherAPI : String → WeatherAPI × Option Error
  /-- The function `url.QueryEscape`, which `q.Encode()` applies to each value. -/
  QueryEscape : String → String
  /-- Whether the compiler fuses `celsius*1.8 + 32` into one rounding. -/
  fusedMulAdd : Bool

/-- Calls made while a request is served, in order. -/
inductive Event where
  | fetchLocationByZipCode (zipCode : String) : Event
  | fetchTemperature (v : ViaCEP) : Event
  | Do (url : String) : Event
  deriving DecidableEq, Repr

def fetchLocationByZipCode (world : World) (zipCode : String) :
    (ViaCEP × Option Error) × List Event :=
  match world.NewRequest (viaCepApiURL ++ zipCode ++ "/json/") with
  | some err => ((ViaCEP.zero, some err), [])
  | none =>
    match world.Do (viaCepApiURL ++ zipCode ++ "/json/") with
    | .error err => ((ViaCEP.zero, some err), [Event.Do (viaCepApiURL ++ zipCode ++ "/json/")])
    | .ok resp =>
      match resp.Body with
      | (_, some err) =>
        ((ViaCEP.zero, some err), [Event.Do (viaCepApiURL ++ zipCode ++ "/json/")])
      | (result, none) =>
        match world.UnmarshalViaCEP result with
        | (_, some err) =>
          ((ViaCEP.zero, some err), [Event.Do (viaCepApiURL ++ zipCode ++ "/json/")])
        | (viaCepData, none) =>
          if viaCepData.Localidade = "" then
            ((ViaCEP.zero, some ("error validating location: " ++ viaCepData.Localidade)),
              [Event.Do (viaCepApiURL ++ zipCode ++ "/json/")])
          else ((viaCepData, none), [Event.Do (viaCepApiURL ++ zipCode ++ "/json/")])

/-- The URL `u.String()` of the weather request: `url.Parse` of the constant base succeeds,
and `q.Encode()` writes the three parameters sorted by key. -/
def weatherURL (world : World) (v : ViaCEP) : String :=
  weatherApiURL ++ "?aqi=" ++ world.QueryEscape "no" ++ "&key=" ++ world.QueryEscape apiKey
    ++ "&q=" ++ world.QueryEscape v.Localidade

def fetchTemperature (world : World) (v : ViaCEP) : (WeatherAPI × Option Error) × List Event :=
  match world.NewRequest (weatherURL world v) with
  | some err => ((WeatherAPI.zero, some err), [])
  | none =>
    match world.Do (weatherURL world v) with
    | .error err => ((WeatherAPI.zero, some err), [Event.Do (weatherURL world v)])
    | .ok resp =>
      match resp.Body with
      | (_, some err) => ((WeatherAPI.zero, some err), [Event.Do (weatherURL world v)])
      | (result, none) =>
        match world.UnmarshalWeatherAPI result with
        | (_, some err) => ((WeatherAPI.zero, some err), [Event.Do (weatherURL world v)])
        | (weather, none) => ((weather, none), [Event.Do (weatherURL world v)])

/-- The expression `celsius*1.8 + 32`, then `%.1f`.  `fused` says whether the product and
the sum are rounded once (fused) or one after the other. -/
def ConvertCelsiusToFahrenheit (fused : Bool) (celsius : F64) : String :=
  let f := if fused then F64.fma celsius F64.c1_8 F64.c32
    else F64.add (F64.mul celsius F64.c1_8) F64.c32
  fmt.Sprintf1f f

def ConvertCelsiusToKelvin (celsius : F64) : String :=
  let k := F64.add celsius F64.c273
  fmt.Sprintf1f k

/-- The call `json.Marshal(dto)`: the fields in declaration order under their tags; a
struct of strings always encodes. -/
def Marshal (dto : TemperatureOutputDTO) : String × Option Error :=
  ("\x7b\"city\":" ++ json.quote dto.City ++ ",\"temp_C\":" ++ json.quote dto.Celsius
      ++ ",\"temp_F\":" ++ json.quote dto.Fahrenheit ++ ",\"temp_K\":" ++ json.quote dto.Kelvin
      ++ "\x7d",
    none)

/-- The handler, on the path `r.URL.Path` of the inbound request. -/
def HandleTemperature (world : World) (path : String) : http.ResponseWriter × List Event :=
  let w : http.ResponseWriter := {}
  let zipCode := strings.Trim path "/temperature/"
  match fetchLocationByZipCode world zipCode with
  | ((_, some _), evs) =>
    (http.Error w "cannot find zipCode" http.StatusNotFound,
      Event.fetchLocationByZipCode zipCode :: evs)
  | ((location, none), evs) =>
    match fetchTemperature world location with
    | ((_, some _), evs2) =>
      (http.Error w "could not get weather" http.StatusInternalServerError,
        Event.fetchLocationByZipCode zipCode :: evs ++ Event.fetchTemperature location :: evs2)
    | ((temperature, none), evs2) =>
      let formatCelcius := fmt.Sprintf1f temperature.Current.CelsiusTemperature
      let dto : TemperatureOutputDTO :=
        { City := location.Localidade
          Celsius := formatCelcius
          Fahrenheit :=
            ConvertCelsiusToFahrenheit world.fusedMulAdd temperature.Current.CelsiusTemperature
          Kelvin := ConvertCelsiusToKelvin temperature.Current.CelsiusTemperature }
      match Marshal dto with
      | (_, some _) =>
        (http.Error w "could not get temperature" http.StatusInternalServerError,
          Event.fetchLocationByZipCode zipCode :: evs ++ Event.fetchTemperature location :: evs2)
      | (byteJson, none) =>
        (w.Write byteJson,
          Event.fetchLocationByZipCode zipCode :: evs ++ Event.fetchTemperature location :: evs2)

end Tempservice

/-! ## Concrete worlds -/

namespace Cepservice

/-- A gateway world: the decoder knows two request bodies, and the temperature service
answers every request with the given status and body. -/
def stubWorld (status : Nat) (answer : String) : World where
  URL_TEMP := ""
  Decode := fun body =>
    if body = "\x7b\"cep\":\"01001000\"\x7d" then (⟨"01001000"⟩, none)
    else if body = "\x7b\"cep\":\"01001-000\"\x7d" then (⟨"01001-000"⟩, none)
    else (⟨""⟩, some "invalid character")
  NewRequest := fun _ => none
  Do := fun _ => .ok ⟨status, (answer, none)⟩

end Cepservice

namespace Tempservice

/-- The `float64` nearest to 25.3: `0x40394CCCCCCCCCCD`. -/
def c25_3 : F64 := .finite false 7121316910779597 (-48)

/-- Answers of the postal-code directory, by URL, in the scenario worlds. -/
def directoryAnswer (url : String) : Option http.Response :=
  if url = "http://viacep.com.br/ws/01001000/json/" then
    some ⟨200, ("\x7b\"localidade\":\"São Paulo\"\x7d", none)⟩
  else if url = "http://viacep.com.br/ws/01001-000/json/" then
    some ⟨200, ("\x7b\"localidade\":\"São Paulo\"\x7d", none)⟩
  else if url = "http://viacep.com.br/ws/99999999/json/" then
    some ⟨200, ("\x7b\"localidade\":\"\"\x7d", none)⟩
  else none

/-- A pipeline world.  `directoryUp` and `weatherUp` say whether the transport to each
upstream service works; the directory knows the codes of `directoryAnswer` and the weather
service answers 25.3 degrees for every locality. -/
def scenarioWorld (directoryUp weatherUp fused : Bool) : World where
  NewRequest := fun _ => none
  Do := fun url =>
    if "http://viacep.com.br/ws/".toList.isPrefixOf url.toList then
      if directoryUp then
        match directoryAnswer url with
        | some resp => .ok resp
        | none => .ok ⟨400, ("<h1>Bad Request</h1>", none)⟩
      else .error "dial tcp: connection refused"
    else if weatherUp then .ok ⟨200, ("\x7b\"current\":\x7b\"temp_c\":25.3\x7d\x7d", none)⟩
    else .error "dial tcp: connection refused"
  UnmarshalViaCEP := fun result =>
    if result = "\x7b\"localidade\":\"São Paulo\"\x7d" then (⟨"São Paulo"⟩, none)
    else if result = "\x7b\"localidade\":\"\"\x7d" then (⟨""⟩, none)
    else (ViaCEP.zero, some "invalid character '<' looking for beginning of value")
  UnmarshalWeatherAPI := fun result =>
    if result = "\x7b\"current\":\x7b\"temp_c\":25.3\x7d\x7d" then
      (⟨⟨c25_3, .finite false 0 0⟩⟩, none)
    else (WeatherAPI.zero, some "invalid character '<' looking for beginning of value")
  QueryEscape := fun s => if s = "São Paulo" then "S%C3%A3o+Paulo" else s
  fusedMulAdd := fused

end Tempservice

/-! ## The conversions in exact arithmetic, as the specification words them -/

namespace Spec

/-- Section 4.4 of the specification read over the rationals:
Fahrenheit = Celsius × 1.8 + 32. -/
def fahrenheit (celsius : ℚ) : ℚ := celsius * (9 / 5) + 32

/-- Section 4.4 of the specification read over the rationals: Kelvin = Celsius + 273. -/
def kelvin (celsius : ℚ) : ℚ := celsius + 273

end Spec

namespace F64

/-- The `float64` next above 1.25, `1.25 + 2 ^ -52`, which Go prints and reads back as
`1.2500000000000002`. -/
def c1_25_up : F64 := finite false 5629499534213121 (-52)

/-- The largest finite `float64`, `math.MaxFloat64`. -/
def maxFloat64 : F64 := finite false 9007199254740991 971

end F64

/-! # Theorems -/

/-! ## The validator of the gateway -/

namespace regexp

theorem matchK_digit_nil (pos : Nat) (k : Nat → List Char → Bool) :
    Regexp.matchK .digit pos [] k = false := rfl

theorem matchK_digit_cons (pos : Nat) (c : Char) (cs : List Char) (k : Nat → List Char → Bool) :
    Regexp.matchK .digit pos (c :: cs) k = (isDigit c && k (pos + 1) cs) := rfl

/-- Matching `\d{n}` consumes exactly `n` characters, all of them digits. -/
theorem repK_digit_iff (n : Nat) : ∀ (pos : Nat) (s : List Char) (k : Nat → List Char → Bool),
    repK (Regexp.matchK .digit) n pos s k = true ↔
      n ≤ s.length ∧ (∀ c ∈ s.take n, isDigit c = true) ∧ k (pos + n) (s.drop n) = true := by
  induction n with
  | zero => intro pos s k; simp [repK]
  | succ n ih =>
    intro pos s k
    cases s with
    | nil => simp [repK, matchK_digit_nil]
    | cons c cs =>
      simp only [repK, matchK_digit_cons, Bool.and_eq_true, ih, List.length_cons,
        List.take_succ_cons, List.mem_cons, forall_eq_or_imp, List.drop_succ_cons,
        Nat.add_le_add_iff_right]
      constructor
      · rintro ⟨h1, h2, h3, h4⟩
        refine ⟨h2, ⟨h1, h3⟩, ?_⟩
        rw [Nat.add_assoc, Nat.add_comm 1 n] at h4
        exact h4
      · rintro ⟨h2, ⟨h1, h3⟩, h4⟩
        refine ⟨h1, h2, h3, ?_⟩
        rw [Nat.add_assoc, Nat.add_comm 1 n]
        exact h4

theorem isDigit_iff (c : Char) : isDigit c = true ↔ '0' ≤ c ∧ c ≤ '9' := by
  simp [isDigit]

end regexp

namespace Cepservice

/-- The pattern matches at offset `i` of a text exactly when `i = 0` and the rest is eight
digits. -/
theorem zipcodeRegexp_matchK (i : Nat) (s : List Char) :
    zipcodeRegexp.matchK i s (fun _ _ => true) = true ↔
      i = 0 ∧ s.length = 8 ∧ ∀ c ∈ s, regexp.isDigit c = true := by
  have h : zipcodeRegexp.matchK i s (fun _ _ => true) =
      (i == 0 && regexp.repK (regexp.Regexp.matchK .digit) 8 i s
        (fun _ t => t.isEmpty && true)) := rfl
  rw [h]
  simp only [Bool.and_eq_true, beq_iff_eq,
    regexp.repK_digit_iff, Bool.and_true, List.isEmpty_iff, List.drop_eq_nil_iff]
  constructor
  · rintro ⟨h0, h1, h2, h3⟩
    have h8 : s.length = 8 := Nat.le_antisymm h3 h1
    refine ⟨h0, h8, ?_⟩
    rw [List.take_of_length_le (by omega)] at h2
    exact h2
  · rintro ⟨h0, h8, h2⟩
    refine ⟨h0, by omega, ?_, by omega⟩
    rw [List.take_of_length_le (by omega)]
    exact h2

theorem isValidZipcode_iff (s : String) :
    isValidZipcode s = true ↔ s.length = 8 ∧ ∀ c ∈ s.toList, '0' ≤ c ∧ c ≤ '9' := by
  unfold isValidZipcode regexp.Regexp.MatchString
  simp only [List.any_eq_true, List.mem_range, zipcodeRegexp_matchK, regexp.isDigit_iff]
  constructor
  · rintro ⟨i, _, h0, h8, hd⟩
    subst h0
    simpa using ⟨h8, hd⟩
  · rintro ⟨h8, hd⟩
    exact ⟨0, by omega, rfl, by simpa using h8, by simpa using hd⟩

/-- C1: `isValidZipcode s` is true exactly when `s` has 8 characters, each one of the ASCII
digits `'0'..'9'`; the empty string, digit strings of 7 and of 9 characters, `"01001-000"`
and eight digits followed by a newline are rejected. -/
theorem isValidZipcode_spec :
    (∀ s : String,
        isValidZipcode s = true ↔ s.length = 8 ∧ ∀ c ∈ s.toList, '0' ≤ c ∧ c ≤ '9') ∧
      isValidZipcode "" = false ∧
      isValidZipcode "0100100" = false ∧
      isValidZipcode "010010000" = false ∧
      isValidZipcode "01001-000" = false ∧
      isValidZipcode "01001000\n" = false :=
  ⟨isValidZipcode_iff, by decide, by decide, by decide, by decide, by decide⟩

/-! ## The gateway handler -/

theorem statusCode_Error (msg : String) (code : Nat) :
    (http.Error {} msg code).statusCode = code := rfl

/-- C2: when the body of the request decodes and its `cep` is not accepted by
`isValidZipcode`, `HandleZipcode` answers 422 with the text `invalid zipcode` and makes no
call at all: `fetchTemperatureByZipCode` is not invoked and no request leaves the
gateway. -/
theorem HandleZipcode_invalid (world : World) (body : String) (inputDto : TemperatureInputDTO)
    (hdec : world.Decode body = (inputDto, none))
    (hinv : isValidZipcode inputDto.Zipcode = false) :
    (HandleZipcode world body).1.statusCode = http.StatusUnprocessableEntity ∧
      (HandleZipcode world body).1.body = "invalid zipcode\n" ∧
      (HandleZipcode world body).2 = [] := by
  have h : HandleZipcode world body =
      (http.Error {} "invalid zipcode" http.StatusUnprocessableEntity, []) := by
    simp only [HandleZipcode, hdec, hinv, Bool.not_false, if_true]
  rw [h]
  exact ⟨rfl, by decide, rfl⟩

theorem HandleZipcode_invalid_witness :
    (HandleZipcode (stubWorld 200 "ok") "\x7b\"cep\":\"01001-000\"\x7d").1.statusCode
        = http.StatusUnprocessableEntity ∧
      (HandleZipcode (stubWorld 200 "ok") "\x7b\"cep\":\"01001-000\"\x7d").1.body
        = "invalid zipcode\n" ∧
      (HandleZipcode (stubWorld 200 "ok") "\x7b\"cep\":\"01001-000\"\x7d").2 = [] :=
  HandleZipcode_invalid (stubWorld 200 "ok") "\x7b\"cep\":\"01001-000\"\x7d" ⟨"01001-000"⟩
    (by decide) (by decide)

/-- C10: for a request whose `cep` is a valid 8-digit code, whenever the request to the
temperature service is built, answered and its body read, `HandleZipcode` answers 200 with
exactly that body, whatever status the temperature service answered with; and it answers
500 exactly when `fetchTemperatureByZipCode` returns an error. -/
theorem HandleZipcode_passthrough (world : World) (body : String)
    (inputDto : TemperatureInputDTO)
    (hdec : world.Decode body = (inputDto, none))
    (hvalid : isValidZipcode inputDto.Zipcode = true) :
    (∀ resp : http.Response,
        world.NewRequest (URL world ++ inputDto.Zipcode) = none →
        world.Do (URL world ++ inputDto.Zipcode) = .ok resp →
        resp.Body.2 = none →
        (HandleZipcode world body).1.statusCode = http.StatusOK ∧
          (HandleZipcode world body).1.body = resp.Body.1) ∧
      ((HandleZipcode world body).1.statusCode = http.StatusInternalServerError ↔
        (fetchTemperatureByZipCode world inputDto.Zipcode).1.2 ≠ none) := by
  constructor
  · intro resp hreq hdo hread
    obtain ⟨sc, data, rerr⟩ := resp
    simp only at hread
    subst hread
    simp only [HandleZipcode, hdec, hvalid, fetchTemperatureByZipCode, hreq, hdo]
    constructor
    · rfl
    · simp [http.ResponseWriter.Write, http.ResponseWriter.WriteHeader,
        http.ResponseWriter.HeaderSet]
  · simp only [HandleZipcode, hdec, hvalid]
    rcases hf : fetchTemperatureByZipCode world inputDto.Zipcode with ⟨⟨data, err⟩, evs⟩
    cases err with
    | none =>
      simp only [ne_eq, not_true_eq_false, iff_false]
      show ¬ ((200 : Nat) = 500)
      decide
    | some e => simp [statusCode_Error]

theorem HandleZipcode_passthrough_witness :
    (HandleZipcode (stubWorld 404 "cannot find zipCode\n")
        "\x7b\"cep\":\"01001000\"\x7d").1.statusCode = http.StatusOK ∧
      (HandleZipcode (stubWorld 404 "cannot find zipCode\n")
        "\x7b\"cep\":\"01001000\"\x7d").1.body = "cannot find zipCode\n" :=
  (HandleZipcode_passthrough (stubWorld 404 "cannot find zipCode\n")
    "\x7b\"cep\":\"01001000\"\x7d" ⟨"01001000"⟩ (by decide) (by decide)).1
    ⟨404, ("cannot find zipCode\n", none)⟩ (by decide) (by rfl) (by decide)

end Cepservice

/-! ## `strings.Trim` and the extraction of the postal code -/

namespace strings

/-- The characters of the cutset `"/temperature/"`. -/
theorem cutset_contains (c : Char) :
    "/temperature/".toList.contains c = true ↔
      c ∈ ['/', 't', 'e', 'm', 'p', 'r', 'a', 'u'] := by
  have h : "/temperature/".toList =
      ['/', 't', 'e', 'm', 'p', 'e', 'r', 'a', 't', 'u', 'r', 'e', '/'] := by decide
  rw [h]
  simp only [List.elem_eq_mem, decide_eq_true_eq, List.mem_cons, List.mem_nil_iff, or_false,
    List.contains]
  tauto

theorem dropWhile_append_of_all {α : Type} (p : α → Bool) (xs ys : List α)
    (h : ∀ x ∈ xs, p x = true) : (xs ++ ys).dropWhile p = ys.dropWhile p := by
  induction xs with
  | nil => rfl
  | cons x xs ih =>
    have hx : p x = true := h x (List.mem_cons_self _ _)
    simp only [List.cons_append, List.dropWhile_cons, hx, if_true]
    exact ih (fun y hy => h y (List.mem_cons_of_mem _ hy))

/-- In front of a list, elements that all satisfy the predicate do not change what trimming
on both sides leaves. -/
theorem trim_append_of_all {α : Type} (p : α → Bool) (xs ys : List α)
    (h : ∀ x ∈ xs, p x = true) :
    ((xs ++ ys).rdropWhile p).dropWhile p = (ys.rdropWhile p).dropWhile p := by
  induction ys using List.reverseRecOn with
  | nil =>
    have : xs.rdropWhile p = [] := by
      rw [List.rdropWhile_eq_nil_iff]
      exact h
    simp [this]
  | append_singleton ys y ih =>
    by_cases hy : p y = true
    · rw [← List.append_assoc, List.rdropWhile_concat_pos _ _ _ hy,
        List.rdropWhile_concat_pos _ _ _ hy]
      exact ih
    · rw [← List.append_assoc, List.rdropWhile_concat_neg _ _ _ hy,
        List.rdropWhile_concat_neg _ _ _ hy, List.append_assoc]
      exact dropWhile_append_of_all p xs _ h

/-- Trimming a text that begins with the whole cutset trims the rest of the text on both
sides. -/
theorem Trim_cutset_append (cutset z : String) (hc : cutset ≠ "") :
    Trim (cutset ++ z) cutset =
      String.mk ((z.toList.rdropWhile fun c => cutset.toList.contains c).dropWhile
        fun c => cutset.toList.contains c) := by
  have hne : ¬ (cutset ++ z = "" ∨ cutset = "") := by
    rintro (h | h)
    · apply hc
      have := congrArg String.length h
      simp at this
      exact String.ext (List.eq_nil_of_length_eq_zero (by simpa using this.1))
    · exact hc h
  unfold Trim
  rw [if_neg hne]
  congr 1
  have hall : ∀ x ∈ cutset.toList, (fun c => cutset.toList.contains c) x = true := by
    intro x hx
    simpa using hx
  simp only [String.toList, String.data_append] at hall ⊢
  exact trim_append_of_all _ _ _ hall

/-- A list is unchanged by trimming on both sides exactly when neither its first nor its
last element satisfies the predicate. -/
theorem trim_eq_self_iff {α : Type} (p : α → Bool) (l : List α) :
    (l.rdropWhile p).dropWhile p = l ↔
      (∀ c, l.head? = some c → p c = false) ∧ (∀ c, l.getLast? = some c → p c = false) := by
  constructor
  · intro h
    have h1 : (l.rdropWhile p).length ≤ l.length := (List.rdropWhile_prefix p l).length_le
    have h2 : ((l.rdropWhile p).dropWhile p).length ≤ (l.rdropWhile p).length :=
      (List.dropWhile_suffix p).length_le
    rw [h] at h2
    have hr : l.rdropWhile p = l :=
      (List.rdropWhile_prefix p l).eq_of_length (Nat.le_antisymm h1 h2)
    rw [hr] at h
    constructor
    · intro c hc
      cases l with
      | nil => simp at hc
      | cons x xs =>
        simp only [List.head?_cons, Option.some.injEq] at hc
        subst hc
        by_contra hp
        have hp : p x = true := by simpa using hp
        have := (List.dropWhile_suffix p (l := xs)).length_le
        rw [List.dropWhile_cons, if_pos hp] at h
        rw [h] at this
        simp at this
    · intro c hc
      rw [List.rdropWhile_eq_self_iff] at hr
      have hl : l ≠ [] := by
        rintro rfl
        simp at hc
      have := hr hl
      rw [List.getLast?_eq_getLast _ hl, Option.some.injEq] at hc
      rw [hc] at this
      simpa using this
  · rintro ⟨hh, hl⟩
    have hr : l.rdropWhile p = l := by
      rw [List.rdropWhile_eq_self_iff]
      intro hne
      have := hl _ (List.getLast?_eq_getLast _ hne)
      simp [this]
    rw [hr]
    cases l with
    | nil => rfl
    | cons x xs =>
      have := hh x rfl
      simp [List.dropWhile_cons, this]

theorem digit_not_in_cutset (c : Char) (hc : '0' ≤ c ∧ c ≤ '9') :
    "/temperature/".toList.contains c = false := by
  rw [Bool.eq_false_iff, Ne, cutset_contains]
  simp only [List.mem_cons, List.mem_nil_iff, or_false]
  rintro (rfl | rfl | rfl | rfl | rfl | rfl | rfl | rfl) <;> revert hc <;> decide

/-- C9: extraction of the postal code from the path the gateway builds.  For a code `z` of
ASCII digits only, `strings.Trim("/temperature/" + z, "/temperature/")` is `z`.  For any
`z` the result is `z` without its trailing and leading characters of the set
`/ t e m p r a u`, so it is `z` itself exactly when `z` neither starts nor ends with a
character of that set. -/
theorem Trim_temperature_path (z : String) :
    ((∀ c ∈ z.toList, '0' ≤ c ∧ c ≤ '9') → Trim ("/temperature/" ++ z) "/temperature/" = z) ∧
      Trim ("/temperature/" ++ z) "/temperature/" =
        String.mk
          ((z.toList.rdropWhile
              fun c => decide (c ∈ ['/', 't', 'e', 'm', 'p', 'r', 'a', 'u'])).dropWhile
            fun c => decide (c ∈ ['/', 't', 'e', 'm', 'p', 'r', 'a', 'u'])) ∧
      (Trim ("/temperature/" ++ z) "/temperature/" = z ↔
        (∀ c, z.toList.head? = some c → c ∉ ['/', 't', 'e', 'm', 'p', 'r', 'a', 'u']) ∧
          ∀ c, z.toList.getLast? = some c → c ∉ ['/', 't', 'e', 'm', 'p', 'r', 'a', 'u']) := by
  have hp : (fun c => "/temperature/".toList.contains c) =
      fun c => decide (c ∈ ['/', 't', 'e', 'm', 'p', 'r', 'a', 'u']) := by
    funext c
    rw [Bool.eq_iff_iff, cutset_contains, decide_eq_true_iff]
  have hT := Trim_cutset_append "/temperature/" z (by decide)
  have hiff : Trim ("/temperature/" ++ z) "/temperature/" = z ↔
      (∀ c, z.toList.head? = some c → "/temperature/".toList.contains c = false) ∧
        ∀ c, z.toList.getLast? = some c → "/temperature/".toList.contains c = false := by
    rw [hT, ← trim_eq_self_iff]
    constructor
    · intro h
      exact congrArg String.data h
    · intro h
      exact String.ext h
  refine ⟨?_, ?_, ?_⟩
  · intro hd
    rw [hiff]
    constructor
    · intro c hc
      exact digit_not_in_cutset c (hd c (List.mem_of_mem_head? hc))
    · intro c hc
      exact digit_not_in_cutset c (hd c (List.mem_of_mem_getLast? hc))
  · rw [hT, hp]
  · rw [hiff]
    simp only [Bool.eq_false_iff, Ne, cutset_contains]

theorem Trim_temperature_path_witness :
    Trim ("/temperature/" ++ "01001000") "/temperature/" = "01001000" :=
  (Trim_temperature_path "01001000").1 (by decide)

end strings

/-! ## JSON text of the formatted readings -/

namespace json

theorem escapeChar_digitChar (k : Nat) (hk : k < 10) :
    escapeChar (Nat.digitChar k) = String.singleton (Nat.digitChar k) := by
  interval_cases k <;> decide

/-- Every character that `Nat.toDigitsCore` adds in base 10 is written to JSON as it is. -/
theorem toDigitsCore_plain (fuel : Nat) : ∀ (n : Nat) (ds : List Char),
    (∀ c ∈ ds, escapeChar c = String.singleton c) →
    ∀ c ∈ Nat.toDigitsCore 10 fuel n ds, escapeChar c = String.singleton c := by
  induction fuel with
  | zero => intro n ds h; simpa [Nat.toDigitsCore] using h
  | succ fuel ih =>
    intro n ds h
    have hd : ∀ c ∈ Nat.digitChar (n % 10) :: ds, escapeChar c = String.singleton c := by
      intro c hc
      rcases List.mem_cons.1 hc with rfl | hc
      · exact escapeChar_digitChar _ (Nat.mod_lt _ (by decide))
      · exact h c hc
    simp only [Nat.toDigitsCore]
    split
    · exact hd
    · exact ih _ _ hd

theorem repr_plain (n : Nat) : ∀ c ∈ (Nat.repr n).toList, escapeChar c = String.singleton c := by
  simp only [Nat.repr, Nat.toDigits, String.toList, List.asString]
  exact toDigitsCore_plain _ _ _ (by simp)

theorem escape_of_plain (l : List Char) (h : ∀ c ∈ l, escapeChar c = String.singleton c) :
    escape l = l := by
  induction l with
  | nil => rfl
  | cons c cs ih =>
    have hc := h c (List.mem_cons_self _ _)
    simp only [escape, hc, ih (fun x hx => h x (List.mem_cons_of_mem _ hx))]
    rfl

theorem quote_of_plain (s : String) (h : ∀ c ∈ s.toList, escapeChar c = String.singleton c) :
    quote s = "\"" ++ s ++ "\"" := by
  simp only [quote, escape_of_plain _ h]
  rfl

/-- The text of a `%.1f` rendering has no character that JSON escapes. -/
theorem Sprintf1f_plain (x : F64) :
    ∀ c ∈ (fmt.Sprintf1f x).toList, escapeChar c = String.singleton c := by
  cases x with
  | finite neg m e =>
    intro c hc
    simp only [fmt.Sprintf1f, fmt.fixed1, String.toList, String.data_append,
      List.mem_append] at hc
    rcases hc with ((hc | hc) | hc) | hc
    · cases neg
      · simp at hc
      · simp at hc
        subst hc
        decide
    · exact repr_plain _ c hc
    · simp at hc
      subst hc
      decide
    · exact repr_plain _ c hc
  | inf neg =>
    cases neg <;> decide
  | nan => decide

theorem quote_Sprintf1f (x : F64) :
    quote (fmt.Sprintf1f x) = "\"" ++ fmt.Sprintf1f x ++ "\"" :=
  quote_of_plain _ (Sprintf1f_plain x)

end json

/-! ## The pipeline handler -/

namespace Tempservice

theorem HandleTemperature_of_location_error (world : World) (path : String) (loc : ViaCEP)
    (err : Error) (evs : List Event)
    (h : fetchLocationByZipCode world (strings.Trim path "/temperature/") =
      ((loc, some err), evs)) :
    HandleTemperature world path =
      (http.Error {} "cannot find zipCode" http.StatusNotFound,
        Event.fetchLocationByZipCode (strings.Trim path "/temperature/") :: evs) := by
  simp only [HandleTemperature, h]

theorem HandleTemperature_of_weather_error (world : World) (path : String) (loc : ViaCEP)
    (evs : List Event) (t : WeatherAPI) (err : Error) (evs2 : List Event)
    (h : fetchLocationByZipCode world (strings.Trim path "/temperature/") = ((loc, none), evs))
    (h2 : fetchTemperature world loc = ((t, some err), evs2)) :
    HandleTemperature world path =
      (http.Error {} "could not get weather" http.StatusInternalServerError,
        Event.fetchLocationByZipCode (strings.Trim path "/temperature/") :: evs ++
          Event.fetchTemperature loc :: evs2) := by
  simp only [HandleTemperature, h, h2]

theorem HandleTemperature_of_success (world : World) (path : String) (loc : ViaCEP)
    (evs : List Event) (t : WeatherAPI) (evs2 : List Event)
    (h : fetchLocationByZipCode world (strings.Trim path "/temperature/") = ((loc, none), evs))
    (h2 : fetchTemperature world loc = ((t, none), evs2)) :
    HandleTemperature world path =
      (({} : http.ResponseWriter).Write (Marshal
          { City := loc.Localidade
            Celsius := fmt.Sprintf1f t.Current.CelsiusTemperature
            Fahrenheit := ConvertCelsiusToFahrenheit world.fusedMulAdd
              t.Current.CelsiusTemperature
            Kelvin := ConvertCelsiusToKelvin t.Current.CelsiusTemperature }).1,
        Event.fetchLocationByZipCode (strings.Trim path "/temperature/") :: evs ++
          Event.fetchTemperature loc :: evs2) := by
  simp only [HandleTemperature, h, h2, Marshal]

/-- The location resolver makes at most one call, the request to the directory. -/
theorem fetchLocationByZipCode_events (world : World) (zipCode : String) :
    (fetchLocationByZipCode world zipCode).2 = [] ∨
      (fetchLocationByZipCode world zipCode).2 =
        [Event.Do (viaCepApiURL ++ zipCode ++ "/json/")] := by
  unfold fetchLocationByZipCode
  cases world.NewRequest (viaCepApiURL ++ zipCode ++ "/json/") with
  | some e => exact Or.inl rfl
  | none =>
    right
    simp only
    cases world.Do (viaCepApiURL ++ zipCode ++ "/json/") with
    | error e => rfl
    | ok resp =>
      simp only
      rcases resp.Body with ⟨result, rerr⟩
      cases rerr with
      | some e => rfl
      | none =>
        simp only
        rcases world.UnmarshalViaCEP result with ⟨v, jerr⟩
        cases jerr with
        | some e => rfl
        | none =>
          simp only
          split <;> rfl

theorem fetchLocationByZipCode_no_fetchTemperature (world : World) (zipCode : String)
    (v : ViaCEP) : Event.fetchTemperature v ∉ (fetchLocationByZipCode world zipCode).2 := by
  rcases fetchLocationByZipCode_events world zipCode with h | h <;> rw [h] <;> simp

/-- What the handler writes when both resolvers succeed. -/
theorem HandleTemperature_success_response (world : World) (path : String) (loc : ViaCEP)
    (weather : WeatherAPI)
    (hloc : (fetchLocationByZipCode world (strings.Trim path "/temperature/")).1 = (loc, none))
    (hw : (fetchTemperature world loc).1 = (weather, none)) :
    (HandleTemperature world path).1 =
      { header := []
        status := some http.StatusOK
        body := "\x7b\"city\":" ++ json.quote loc.Localidade
          ++ ",\"temp_C\":\"" ++ fmt.Sprintf1f weather.Current.CelsiusTemperature
          ++ "\",\"temp_F\":\""
          ++ ConvertCelsiusToFahrenheit world.fusedMulAdd weather.Current.CelsiusTemperature
          ++ "\",\"temp_K\":\"" ++ ConvertCelsiusToKelvin weather.Current.CelsiusTemperature
          ++ "\"\x7d" } := by
  rcases h : fetchLocationByZipCode world (strings.Trim path "/temperature/") with ⟨p, evs⟩
  rw [h] at hloc
  simp only at hloc
  subst hloc
  rcases h2 : fetchTemperature world loc with ⟨p2, evs2⟩
  rw [h2] at hw
  simp only at hw
  subst hw
  simp only [HandleTemperature, h, h2, Marshal, ConvertCelsiusToFahrenheit,
    ConvertCelsiusToKelvin, json.quote_Sprintf1f]
  simp only [http.ResponseWriter.Write, http.ResponseWriter.WriteHeader, String.append_assoc]
  have e1 : ∀ r : String, ",\"temp_C\":" ++ ("\"" ++ r) = ",\"temp_C\":\"" ++ r :=
    fun r => (String.append_assoc _ _ r).symm
  have e2 : ∀ r : String,
      "\"" ++ (",\"temp_F\":" ++ ("\"" ++ r)) = "\",\"temp_F\":\"" ++ r :=
    fun r => by rw [← String.append_assoc, ← String.append_assoc]; rfl
  have e3 : ∀ r : String,
      "\"" ++ (",\"temp_K\":" ++ ("\"" ++ r)) = "\",\"temp_K\":\"" ++ r :=
    fun r => by rw [← String.append_assoc, ← String.append_assoc]; rfl
  have e4 : "\"" ++ "\x7d" = "\"\x7d" := by decide
  simp [e1, e2, e3, e4]

/-- C3 (as amended): `HandleTemperature` has no validation step.  For every request,
whatever the shape of the postal code, the first thing it does is call
`fetchLocationByZipCode` with the trimmed path, and its answer is 200, 404 or 500, never the
Unprocessable status 422. -/
theorem HandleTemperature_no_validation (world : World) (path : String) :
    (HandleTemperature world path).2.head? =
        some (Event.fetchLocationByZipCode (strings.Trim path "/temperature/")) ∧
      ((HandleTemperature world path).1.statusCode = http.StatusOK ∨
        (HandleTemperature world path).1.statusCode = http.StatusNotFound ∨
        (HandleTemperature world path).1.statusCode = http.StatusInternalServerError) ∧
      (HandleTemperature world path).1.statusCode ≠ http.StatusUnprocessableEntity := by
  have key : (HandleTemperature world path).2.head? =
        some (Event.fetchLocationByZipCode (strings.Trim path "/temperature/")) ∧
      ((HandleTemperature world path).1.statusCode = http.StatusOK ∨
        (HandleTemperature world path).1.statusCode = http.StatusNotFound ∨
        (HandleTemperature world path).1.statusCode = http.StatusInternalServerError) := by
    rcases h : fetchLocationByZipCode world (strings.Trim path "/temperature/") with
      ⟨⟨loc, e⟩, evs⟩
    cases e with
    | some err =>
      rw [HandleTemperature_of_location_error world path loc err evs h]
      exact ⟨rfl, Or.inr (Or.inl rfl)⟩
    | none =>
      rcases h2 : fetchTemperature world loc with ⟨⟨t, e2⟩, evs2⟩
      cases e2 with
      | some err =>
        rw [HandleTemperature_of_weather_error world path loc evs t err evs2 h h2]
        exact ⟨rfl, Or.inr (Or.inr rfl)⟩
      | none =>
        rw [HandleTemperature_of_success world path loc evs t evs2 h h2]
        exact ⟨rfl, Or.inl rfl⟩
  refine ⟨key.1, key.2, ?_⟩
  rcases key.2 with h | h | h <;> rw [h] <;> decide

/-- C3, the claim as stated fails: `"01001-000"` is not an 8-digit code, and in a world whose
directory knows it the handler answers 200 after calling both resolvers. -/
theorem HandleTemperature_validation_counterexample :
    Cepservice.isValidZipcode "01001-000" = false ∧
      strings.Trim "/temperature/01001-000" "/temperature/" = "01001-000" ∧
      (HandleTemperature (scenarioWorld true true false) "/temperature/01001-000").1.statusCode
        = http.StatusOK ∧
      (HandleTemperature (scenarioWorld true true false) "/temperature/01001-000").2 =
        [Event.fetchLocationByZipCode "01001-000",
          Event.Do "http://viacep.com.br/ws/01001-000/json/",
          Event.fetchTemperature ⟨"São Paulo"⟩,
          Event.Do ("http://api.weatherapi.com/v1/current.json?aqi=no" ++
            "&key=bdb5695826b246b5a47230638241405&q=S%C3%A3o+Paulo")] ∧
      ¬ ((HandleTemperature (scenarioWorld true true false) "/temperature/01001-000").1.statusCode
          = http.StatusUnprocessableEntity ∧
        (∀ z, Event.fetchLocationByZipCode z ∉
          (HandleTemperature (scenarioWorld true true false) "/temperature/01001-000").2) ∧
        ∀ v, Event.fetchTemperature v ∉
          (HandleTemperature (scenarioWorld true true false) "/temperature/01001-000").2) := by
  have hs : (HandleTemperature (scenarioWorld true true false)
      "/temperature/01001-000").1.statusCode = http.StatusOK := by decide
  refine ⟨by decide, by decide, hs, by decide, ?_⟩
  rintro ⟨h, _⟩
  rw [hs] at h
  exact absurd h (by decide)

/-- C4: when the directory answers, its body is read and decodes to a `ViaCEP` whose
`Localidade` is empty, `fetchLocationByZipCode` returns the zero `ViaCEP` with an error,
`HandleTemperature` answers 404, and its only calls are the location resolver and the
request to the directory: `fetchTemperature` is not called. -/
theorem HandleTemperature_empty_locality (world : World) (path : String) (resp : http.Response)
    (result : String) (v : ViaCEP)
    (hreq : world.NewRequest
      (viaCepApiURL ++ strings.Trim path "/temperature/" ++ "/json/") = none)
    (hdo : world.Do (viaCepApiURL ++ strings.Trim path "/temperature/" ++ "/json/") = .ok resp)
    (hbody : resp.Body = (result, none))
    (hjson : world.UnmarshalViaCEP result = (v, none))
    (hempty : v.Localidade = "") :
    (fetchLocationByZipCode world (strings.Trim path "/temperature/")).1 =
        (ViaCEP.zero, some "error validating location: ") ∧
      (HandleTemperature world path).1.statusCode = http.StatusNotFound ∧
      (HandleTemperature world path).2 =
        [Event.fetchLocationByZipCode (strings.Trim path "/temperature/"),
          Event.Do (viaCepApiURL ++ strings.Trim path "/temperature/" ++ "/json/")] ∧
      ∀ l, Event.fetchTemperature l ∉ (HandleTemperature world path).2 := by
  have h : fetchLocationByZipCode world (strings.Trim path "/temperature/") =
      ((ViaCEP.zero, some ("error validating location: " ++ "")),
        [Event.Do (viaCepApiURL ++ strings.Trim path "/temperature/" ++ "/json/")]) := by
    simp only [fetchLocationByZipCode, hreq, hdo, hbody, hjson, hempty, if_true]
  rw [HandleTemperature_of_location_error world path _ _ _ h, h]
  refine ⟨?_, rfl, rfl, ?_⟩
  · simp
  · intro l
    simp

theorem HandleTemperature_empty_locality_witness :
    (fetchLocationByZipCode (scenarioWorld true true false)
        (strings.Trim "/temperature/99999999" "/temperature/")).1 =
        (ViaCEP.zero, some "error validating location: ") ∧
      (HandleTemperature (scenarioWorld true true false)
        "/temperature/99999999").1.statusCode = http.StatusNotFound ∧
      (HandleTemperature (scenarioWorld true true false) "/temperature/99999999").2 =
        [Event.fetchLocationByZipCode (strings.Trim "/temperature/99999999" "/temperature/"),
          Event.Do (viaCepApiURL ++ strings.Trim "/temperature/99999999" "/temperature/"
            ++ "/json/")] ∧
      ∀ l, Event.fetchTemperature l ∉
        (HandleTemperature (scenarioWorld true true false) "/temperature/99999999").2 :=
  HandleTemperature_empty_locality (scenarioWorld true true false) "/temperature/99999999"
    ⟨200, ("\x7b\"localidade\":\"\"\x7d", none)⟩ "\x7b\"localidade\":\"\"\x7d" ⟨""⟩
    (by decide) (by rfl) (by decide) (by decide) (by decide)

end Tempservice

namespace Tempservice

/-- C5 (as amended): every failure of `fetchLocationByZipCode`, of whatever kind (request
construction, transport, reading the body, JSON decoding, empty locality), makes
`HandleTemperature` answer 404 with the text `cannot find zipCode`, and `fetchTemperature` is
not called. -/
theorem HandleTemperature_location_failure (world : World) (path : String) (err : Error)
    (hfail : (fetchLocationByZipCode world (strings.Trim path "/temperature/")).1.2 = some err) :
    (HandleTemperature world path).1.statusCode = http.StatusNotFound ∧
      (HandleTemperature world path).1.body = "cannot find zipCode\n" ∧
      ∀ v, Event.fetchTemperature v ∉ (HandleTemperature world path).2 := by
  have hev := fetchLocationByZipCode_no_fetchTemperature world (strings.Trim path "/temperature/")
  rcases h : fetchLocationByZipCode world (strings.Trim path "/temperature/") with
    ⟨⟨loc, e⟩, evs⟩
  rw [h] at hfail hev
  simp only at hfail
  subst hfail
  rw [HandleTemperature_of_location_error world path loc err evs h]
  refine ⟨rfl, (by decide : (http.Error {} "cannot find zipCode" http.StatusNotFound).body =
    "cannot find zipCode\n"), ?_⟩
  intro v
  simp only [List.mem_cons, not_or]
  exact ⟨by simp, hev v⟩

theorem HandleTemperature_location_failure_witness :
    (HandleTemperature (scenarioWorld false true false)
        "/temperature/01001000").1.statusCode = http.StatusNotFound ∧
      (HandleTemperature (scenarioWorld false true false) "/temperature/01001000").1.body =
        "cannot find zipCode\n" ∧
      ∀ v, Event.fetchTemperature v ∉
        (HandleTemperature (scenarioWorld false true false) "/temperature/01001000").2 :=
  HandleTemperature_location_failure (scenarioWorld false true false) "/temperature/01001000"
    "dial tcp: connection refused" (by decide)

/-- C5, the claim as stated fails: with the directory unreachable the location resolver
fails at the transport, not for an empty locality, and the handler answers 404, the very
status it gives for an empty locality, not 500. -/
theorem HandleTemperature_transport_failure_counterexample :
    (fetchLocationByZipCode (scenarioWorld false true false) "01001000").1 =
        (ViaCEP.zero, some "dial tcp: connection refused") ∧
      (HandleTemperature (scenarioWorld false true false)
        "/temperature/01001000").1.statusCode = http.StatusNotFound ∧
      (fetchLocationByZipCode (scenarioWorld true true false) "99999999").1 =
        (ViaCEP.zero, some "error validating location: ") ∧
      (HandleTemperature (scenarioWorld true true false)
        "/temperature/99999999").1.statusCode = http.StatusNotFound ∧
      (HandleTemperature (scenarioWorld false true false)
        "/temperature/01001000").1.statusCode ≠ http.StatusInternalServerError := by
  refine ⟨by decide, by decide, by decide, by decide, by decide⟩

/-- C6: when the location resolver succeeds and `fetchTemperature` returns an error,
`HandleTemperature` answers 500 with the text `could not get weather`; the body is not the
JSON of any `TemperatureOutputDTO`. -/
theorem HandleTemperature_weather_failure (world : World) (path : String) (loc : ViaCEP)
    (err : Error)
    (hloc : (fetchLocationByZipCode world (strings.Trim path "/temperature/")).1 = (loc, none))
    (hfail : (fetchTemperature world loc).1.2 = some err) :
    (HandleTemperature world path).1.statusCode = http.StatusInternalServerError ∧
      (HandleTemperature world path).1.body = "could not get weather\n" ∧
      ∀ dto : TemperatureOutputDTO, (HandleTemperature world path).1.body ≠ (Marshal dto).1 := by
  rcases h : fetchLocationByZipCode world (strings.Trim path "/temperature/") with ⟨p, evs⟩
  rw [h] at hloc
  simp only at hloc
  subst hloc
  rcases h2 : fetchTemperature world loc with ⟨⟨t, e⟩, evs2⟩
  rw [h2] at hfail
  simp only at hfail
  subst hfail
  rw [HandleTemperature_of_weather_error world path loc evs t err evs2 h h2]
  have hb : (http.Error {} "could not get weather" http.StatusInternalServerError).body =
      "could not get weather\n" := by decide
  refine ⟨rfl, hb, ?_⟩
  intro dto hEq
  simp only [hb, Marshal] at hEq
  have := congrArg (fun s : String => s.data.head?) hEq
  simp [String.data_append] at this

theorem HandleTemperature_weather_failure_witness :
    (HandleTemperature (scenarioWorld true false false)
        "/temperature/01001000").1.statusCode = http.StatusInternalServerError ∧
      (HandleTemperature (scenarioWorld true false false) "/temperature/01001000").1.body =
        "could not get weather\n" ∧
      ∀ dto : TemperatureOutputDTO,
        (HandleTemperature (scenarioWorld true false false) "/temperature/01001000").1.body ≠
          (Marshal dto).1 :=
  HandleTemperature_weather_failure (scenarioWorld true false false) "/temperature/01001000"
    ⟨"São Paulo"⟩ "dial tcp: connection refused" (by decide) (by decide)

set_option maxRecDepth 100000 in
/-- C8: when both resolvers succeed, with locality `L` and Celsius reading `c`,
`HandleTemperature` answers 200 and writes exactly the JSON object with the keys `city`,
`temp_C`, `temp_F`, `temp_K` in this order, where `city` is `L` as a JSON string, `temp_C` is
`c` under `%.1f`, `temp_F` is `ConvertCelsiusToFahrenheit(c)` and `temp_K` is
`ConvertCelsiusToKelvin(c)`.  For the path `/temperature/01001000`, the directory answer
with `localidade` São Paulo and the weather answer with `temp_c` 25.3, the body is the object
with city São Paulo and the readings 25.3, 77.5 and 298.3. -/
theorem HandleTemperature_success :
    (∀ (world : World) (path : String) (loc : ViaCEP) (weather : WeatherAPI),
        (fetchLocationByZipCode world (strings.Trim path "/temperature/")).1 = (loc, none) →
        (fetchTemperature world loc).1 = (weather, none) →
        (HandleTemperature world path).1 =
          { header := []
            status := some http.StatusOK
            body := "\x7b\"city\":" ++ json.quote loc.Localidade
              ++ ",\"temp_C\":\"" ++ fmt.Sprintf1f weather.Current.CelsiusTemperature
              ++ "\",\"temp_F\":\""
              ++ ConvertCelsiusToFahrenheit world.fusedMulAdd
                weather.Current.CelsiusTemperature
              ++ "\",\"temp_K\":\"" ++ ConvertCelsiusToKelvin weather.Current.CelsiusTemperature
              ++ "\"\x7d" }) ∧
      ∀ fused : Bool,
        (HandleTemperature (scenarioWorld true true fused) "/temperature/01001000").1 =
          { header := []
            status := some http.StatusOK
            body := "\x7b\"city\":\"São Paulo\",\"temp_C\":\"25.3\",\"temp_F\":\"77.5\"," ++
              "\"temp_K\":\"298.3\"\x7d" } := by
  refine ⟨HandleTemperature_success_response, ?_⟩
  intro fused
  cases fused <;> decide

set_option maxRecDepth 100000 in
theorem HandleTemperature_success_witness :
    (HandleTemperature (scenarioWorld true true false) "/temperature/01001000").1 =
      { header := []
        status := some http.StatusOK
        body := "\x7b\"city\":" ++ json.quote "São Paulo"
          ++ ",\"temp_C\":\"" ++ fmt.Sprintf1f c25_3
          ++ "\",\"temp_F\":\"" ++ ConvertCelsiusToFahrenheit false c25_3
          ++ "\",\"temp_K\":\"" ++ ConvertCelsiusToKelvin c25_3
          ++ "\"\x7d" } :=
  HandleTemperature_success.1 (scenarioWorld true true false) "/temperature/01001000"
    ⟨"São Paulo"⟩ ⟨⟨c25_3, .finite false 0 0⟩⟩ (by decide) (by decide)

end Tempservice

/-! ## `float64`: error of one rounding -/

theorem bitLenAux_lt (fuel : Nat) : ∀ n, n ≤ fuel → n < 2 ^ bitLenAux fuel n := by
  induction fuel with
  | zero => intro n h; simp [bitLenAux]; omega
  | succ fuel ih =>
    intro n h
    simp only [bitLenAux]
    split
    · next h0 => subst h0; simp
    · next h0 =>
      have := ih (n / 2) (by omega)
      rw [pow_succ]
      omega

theorem bitLenAux_le (fuel : Nat) : ∀ n, n ≤ fuel → n ≠ 0 → 2 ^ (bitLenAux fuel n - 1) ≤ n := by
  induction fuel with
  | zero => intro n h h0; omega
  | succ fuel ih =>
    intro n h h0
    simp only [bitLenAux, if_neg h0, Nat.add_sub_cancel]
    by_cases h2 : n / 2 = 0
    · have : bitLenAux fuel (n / 2) = 0 := by
        rw [h2]
        cases fuel <;> simp [bitLenAux]
      rw [this]
      simp
      omega
    · have := ih (n / 2) (by omega) h2
      have hpos : 0 < bitLenAux fuel (n / 2) := by
        cases fuel with
        | zero => omega
        | succ f => simp [bitLenAux, h2]
      have e : bitLenAux fuel (n / 2) = (bitLenAux fuel (n / 2) - 1) + 1 := by omega
      rw [e, pow_succ]
      omega

theorem lt_two_pow_bitLen (n : Nat) : n < 2 ^ bitLen n := bitLenAux_lt n n (Nat.le_refl n)

theorem two_pow_bitLen_le (n : Nat) (h : n ≠ 0) : 2 ^ (bitLen n - 1) ≤ n :=
  bitLenAux_le n n (Nat.le_refl n) h

theorem bitLen_pos (n : Nat) (h : n ≠ 0) : 0 < bitLen n := by
  by_contra h0
  have := lt_two_pow_bitLen n
  have e : bitLen n = 0 := by omega
  rw [e] at this
  omega

theorem bitLen_le_of_lt (n k : Nat) (h : n < 2 ^ k) : bitLen n ≤ k := by
  by_contra hk
  by_cases h0 : n = 0
  · subst h0
    have : bitLen 0 = 0 := rfl
    omega
  · have h1 := two_pow_bitLen_le n h0
    have : 2 ^ k ≤ 2 ^ (bitLen n - 1) := Nat.pow_le_pow_right (by decide) (by omega)
    omega

namespace F64

/-- Rounding the quotient: the kept part is within half a unit of the last place. -/
theorem round_quotient (m s : Nat) (hs : 0 < s) (q1 : Nat)
    (hq1 : q1 = if 2 ^ (s - 1) < m % 2 ^ s ∨ (m % 2 ^ s = 2 ^ (s - 1) ∧ m / 2 ^ s % 2 = 1)
      then m / 2 ^ s + 1 else m / 2 ^ s) :
    q1 * 2 ^ s ≤ m + 2 ^ (s - 1) ∧ m ≤ q1 * 2 ^ s + 2 ^ (s - 1) ∧ q1 ≤ m / 2 ^ s + 1 := by
  have hP : 2 ^ s = 2 * 2 ^ (s - 1) := by
    conv_lhs => rw [show s = (s - 1) + 1 by omega]
    rw [pow_succ, Nat.mul_comm]
  have hdm := Nat.div_add_mod m (2 ^ s)
  have hr := Nat.mod_lt m (Nat.pos_of_ne_zero (pow_ne_zero s (by decide : (2 : Nat) ≠ 0)))
  rw [Nat.mul_comm] at hdm
  obtain ⟨q, hq⟩ : ∃ q, m / 2 ^ s = q := ⟨_, rfl⟩
  obtain ⟨r, hrr⟩ : ∃ r, m % 2 ^ s = r := ⟨_, rfl⟩
  obtain ⟨H, hH⟩ : ∃ H, 2 ^ (s - 1) = H := ⟨_, rfl⟩
  rw [hq, hrr] at hdm
  rw [hrr] at hr
  rw [hq, hrr, hH] at hq1
  rw [hq, hH]
  rw [hP, hH] at hdm hr ⊢
  split at hq1
  · next hc =>
    rw [hq1, Nat.add_mul]
    obtain ⟨qP, hqP⟩ : ∃ qP, q * (2 * H) = qP := ⟨_, rfl⟩
    rw [hqP] at hdm ⊢
    omega
  · next hc =>
    rw [hq1]
    obtain ⟨qP, hqP⟩ : ∃ qP, q * (2 * H) = qP := ⟨_, rfl⟩
    rw [hqP] at hdm ⊢
    omega

theorem zpow_lt_zpow_two {a b : Int} (h : (2 : ℚ) ^ a < 2 ^ b) : a < b := by
  by_contra hab
  have : (2 : ℚ) ^ b ≤ 2 ^ a := zpow_le_zpow_right₀ (by norm_num) (by omega)
  linarith

/-- Rounding a magnitude below `2 ^ 1023` gives a finite float with the same sign, within
`2 ^ -53` of the magnitude, relatively, or within `2 ^ -1075`. -/
theorem round_close (neg : Bool) (m : Nat) (e : Int)
    (h : (m : ℚ) * 2 ^ e < 2 ^ (1023 : ℤ)) :
    ∃ q : Nat, ∃ e1 : Int, round neg m e = finite neg q e1 ∧
      |(q : ℚ) * 2 ^ e1 - (m : ℚ) * 2 ^ e| ≤ (m : ℚ) * 2 ^ e / 2 ^ 53 + 1 / 2 ^ 1075 := by
  have hE : (0 : ℚ) < 2 ^ e := zpow_pos (by norm_num) e
  by_cases hm : m = 0
  · subst hm
    refine ⟨0, 0, by simp [round], by simp⟩
  have hL1 := two_pow_bitLen_le m hm
  have hL2 := lt_two_pow_bitLen m
  have hLpos := bitLen_pos m hm
  -- the exponent of the leading bit
  have hLe : (bitLen m : Int) + e ≤ 1023 := by
    have h1 : ((2 : ℚ) ^ ((bitLen m - 1 : Nat) : Int)) * 2 ^ e ≤ (m : ℚ) * 2 ^ e := by
      apply mul_le_mul_of_nonneg_right _ hE.le
      rw [zpow_natCast]
      exact_mod_cast hL1
    rw [← zpow_add₀ (by norm_num : (2 : ℚ) ≠ 0)] at h1
    have := zpow_lt_zpow_two (lt_of_le_of_lt h1 h)
    omega
  have hbound : (0 : ℚ) ≤ (m : ℚ) * 2 ^ e / 2 ^ 53 + 1 / 2 ^ 1075 := by positivity
  unfold round
  simp only [hm, if_false]
  split
  · next hcase =>
    rw [if_neg (by omega)]
    exact ⟨m, e, rfl, by simpa using hbound⟩
  · next hcase =>
    have hcase : e < max (e + (bitLen m : Int) - 53) (-1074) := by omega
    generalize he1 : max (e + (bitLen m : Int) - 53) (-1074) = e1 at hcase ⊢
    obtain ⟨s, hs⟩ : ∃ s : Nat, (s : Int) = e1 - e := ⟨(e1 - e).toNat, by omega⟩
    have hs0 : 0 < s := by omega
    have hst : (e1 - e).toNat = s := by omega
    simp only [hst]
    obtain ⟨hq_up, hq_dn, hq_le⟩ := round_quotient m s hs0 _ rfl
    generalize hq1 : (if 2 ^ (s - 1) < m % 2 ^ s ∨ (m % 2 ^ s = 2 ^ (s - 1) ∧ m / 2 ^ s % 2 = 1)
      then m / 2 ^ s + 1 else m / 2 ^ s) = q1 at hq_up hq_dn hq_le ⊢
    -- no overflow
    have hq1lt : q1 < 2 ^ (bitLen m - s + 1) := by
      have hq : m / 2 ^ s < 2 ^ (bitLen m - s) := by
        by_cases hsl : s ≤ bitLen m
        · apply Nat.div_lt_of_lt_mul
          rw [← pow_add]
          rw [show s + (bitLen m - s) = bitLen m by omega]
          exact hL2
        · have : m < 2 ^ s := lt_of_lt_of_le hL2 (Nat.pow_le_pow_right (by decide) (by omega))
          rw [Nat.div_eq_of_lt this]
          positivity
      have hpos : 0 < 2 ^ (bitLen m - s) := Nat.pos_of_ne_zero (pow_ne_zero _ (by decide))
      rw [pow_succ]
      omega
    have hbl := bitLen_le_of_lt q1 _ hq1lt
    have hfin : ¬ ((bitLen q1 : Int) + e1 > 1024) := by
      by_cases hsl : s ≤ bitLen m
      · omega
      · omega
    rw [if_neg hfin]
    refine ⟨q1, e1, rfl, ?_⟩
    -- the error
    have he1E : (2 : ℚ) ^ e1 = 2 ^ s * 2 ^ e := by
      rw [show e1 = (s : Int) + e by omega, zpow_add₀ (by norm_num : (2 : ℚ) ≠ 0), zpow_natCast]
    have hP : (2 : ℚ) ^ s = 2 * 2 ^ (s - 1) := by
      conv_lhs => rw [show s = (s - 1) + 1 by omega]
      rw [pow_succ, mul_comm]
    have hup : (q1 : ℚ) * 2 ^ s ≤ m + 2 ^ (s - 1) := by exact_mod_cast hq_up
    have hdn : (m : ℚ) ≤ q1 * 2 ^ s + 2 ^ (s - 1) := by exact_mod_cast hq_dn
    have herr : |(q1 : ℚ) * 2 ^ e1 - (m : ℚ) * 2 ^ e| ≤ 2 ^ (s - 1) * 2 ^ e := by
      rw [he1E, show (q1 : ℚ) * (2 ^ s * 2 ^ e) - (m : ℚ) * 2 ^ e =
        ((q1 : ℚ) * 2 ^ s - m) * 2 ^ e by ring, abs_mul, abs_of_pos hE]
      apply mul_le_mul_of_nonneg_right _ hE.le
      rw [abs_le]
      constructor <;> linarith
    refine le_trans herr ?_
    -- half a unit of the last place against the bound
    rcases max_cases (e + (bitLen m : Int) - 53) (-1074) with ⟨hmax, _⟩ | ⟨hmax, _⟩
    · -- normal range
      have hs53 : s + 53 = bitLen m := by omega
      have h2 : (2 : ℚ) ^ (s - 1) * 2 ^ 53 ≤ m := by
        rw [← pow_add, show s - 1 + 53 = bitLen m - 1 by omega]
        exact_mod_cast hL1
      have : (2 : ℚ) ^ (s - 1) * 2 ^ e ≤ (m : ℚ) * 2 ^ e / 2 ^ 53 := by
        rw [le_div_iff₀ (by positivity)]
        nlinarith [hE]
      have hp : (0 : ℚ) ≤ 1 / 2 ^ 1075 := by positivity
      linarith
    · -- subnormal range
      have : (2 : ℚ) ^ (s - 1) * 2 ^ e = 1 / 2 ^ 1075 := by
        rw [← zpow_natCast, ← zpow_add₀ (by norm_num : (2 : ℚ) ≠ 0),
          show ((s - 1 : Nat) : Int) + e = -1075 by omega, zpow_neg, one_div]
        norm_cast
      have hp : (0 : ℚ) ≤ (m : ℚ) * 2 ^ e / 2 ^ 53 := by positivity
      linarith

/-- The sign factor of a float. -/
theorem abs_sign (neg : Bool) : |(if neg then (-1 : ℚ) else 1)| = 1 := by
  cases neg <;> simp

theorem abs_toRat (neg : Bool) (m : Nat) (e : Int) :
    |toRat (finite neg m e)| = (m : ℚ) * 2 ^ e := by
  have hE : (0 : ℚ) < 2 ^ e := zpow_pos (by norm_num) e
  rw [toRat, abs_mul, abs_mul, abs_sign, one_mul, abs_of_nonneg (Nat.cast_nonneg m),
    abs_of_pos hE]

/-- Rounding the real number `v` of sign `neg` and magnitude `m * 2 ^ e`. -/
theorem round_spec (neg : Bool) (m : Nat) (e : Int) (v : ℚ)
    (hv : v = (if neg then -1 else 1) * (m : ℚ) * 2 ^ e) (h : |v| < 2 ^ (1023 : ℤ)) :
    ∃ q : Nat, ∃ e1 : Int, round neg m e = finite neg q e1 ∧
      |toRat (finite neg q e1) - v| ≤ |v| / 2 ^ 53 + 1 / 2 ^ 1075 := by
  have hE : (0 : ℚ) < 2 ^ e := zpow_pos (by norm_num) e
  have habs : |v| = (m : ℚ) * 2 ^ e := by
    rw [hv]
    exact abs_toRat neg m e
  rw [habs] at h ⊢
  obtain ⟨q, e1, hr, hc⟩ := round_close neg m e h
  refine ⟨q, e1, hr, ?_⟩
  rw [hv, toRat, show (if neg then (-1 : ℚ) else 1) * (q : ℚ) * 2 ^ e1 -
      (if neg then (-1 : ℚ) else 1) * (m : ℚ) * 2 ^ e =
    (if neg then (-1 : ℚ) else 1) * ((q : ℚ) * 2 ^ e1 - (m : ℚ) * 2 ^ e) by ring,
    abs_mul, abs_sign, one_mul]
  exact hc

theorem mul_spec (na : Bool) (ma : Nat) (ea : Int) (nb : Bool) (mb : Nat) (eb : Int)
    (h : |toRat (finite na ma ea) * toRat (finite nb mb eb)| < 2 ^ (1023 : ℤ)) :
    ∃ n : Bool, ∃ q : Nat, ∃ e1 : Int,
      mul (finite na ma ea) (finite nb mb eb) = finite n q e1 ∧
      |toRat (finite n q e1) - toRat (finite na ma ea) * toRat (finite nb mb eb)| ≤
        |toRat (finite na ma ea) * toRat (finite nb mb eb)| / 2 ^ 53 + 1 / 2 ^ 1075 := by
  have hv : toRat (finite na ma ea) * toRat (finite nb mb eb) =
      (if xor na nb then -1 else 1) * ((ma * mb : Nat) : ℚ) * 2 ^ (ea + eb) := by
    rw [toRat, toRat, zpow_add₀ (by norm_num : (2 : ℚ) ≠ 0)]
    push_cast
    cases na <;> cases nb <;> simp <;> ring
  obtain ⟨q, e1, hr, hc⟩ := round_spec (xor na nb) (ma * mb) (ea + eb) _ hv h
  exact ⟨xor na nb, q, e1, hr, hc⟩

theorem signed_cast (neg : Bool) (m : Nat) :
    ((signed neg m : Int) : ℚ) = (if neg then -1 else 1) * (m : ℚ) := by
  cases neg <;> simp [signed]

theorem addExact_spec (na : Bool) (ma : Nat) (ea : Int) (nb : Bool) (mb : Nat) (eb : Int)
    (h : |toRat (finite na ma ea) + toRat (finite nb mb eb)| < 2 ^ (1023 : ℤ)) :
    ∃ n : Bool, ∃ q : Nat, ∃ e1 : Int,
      addExact na ma ea nb mb eb = finite n q e1 ∧
      |toRat (finite n q e1) - (toRat (finite na ma ea) + toRat (finite nb mb eb))| ≤
        |toRat (finite na ma ea) + toRat (finite nb mb eb)| / 2 ^ 53 + 1 / 2 ^ 1075 := by
  obtain ⟨e, he⟩ : ∃ e, min ea eb = e := ⟨_, rfl⟩
  obtain ⟨z, hz⟩ : ∃ z : Int, signed na (ma * 2 ^ (ea - e).toNat) +
      signed nb (mb * 2 ^ (eb - e).toNat) = z := ⟨_, rfl⟩
  have hpa : (2 : ℚ) ^ ea = 2 ^ (ea - e).toNat * 2 ^ e := by
    rw [← zpow_natCast, ← zpow_add₀ (by norm_num : (2 : ℚ) ≠ 0)]
    congr 1
    omega
  have hpb : (2 : ℚ) ^ eb = 2 ^ (eb - e).toNat * 2 ^ e := by
    rw [← zpow_natCast, ← zpow_add₀ (by norm_num : (2 : ℚ) ≠ 0)]
    congr 1
    omega
  have hsum : toRat (finite na ma ea) + toRat (finite nb mb eb) = (z : ℚ) * 2 ^ e := by
    rw [← hz, toRat, toRat]
    push_cast [signed_cast]
    rw [hpa, hpb]
    ring
  have hdef : addExact na ma ea nb mb eb =
      if z = 0 then finite (na && nb) 0 0 else round (decide (z < 0)) z.natAbs e := by
    simp only [addExact, he, hz]
  rw [hdef]
  by_cases hz0 : z = 0
  · rw [if_pos hz0]
    refine ⟨_, _, _, rfl, ?_⟩
    rw [hsum, hz0]
    simp [toRat]
  · rw [if_neg hz0]
    have hv : toRat (finite na ma ea) + toRat (finite nb mb eb) =
        (if decide (z < 0) then -1 else 1) * ((z.natAbs : Nat) : ℚ) * 2 ^ e := by
      rw [hsum]
      congr 1
      rcases lt_or_le z 0 with hneg | hpos
      · have : ((z.natAbs : Nat) : Int) = -z := by omega
        have hq : ((z.natAbs : Nat) : ℚ) = -(z : ℚ) := by
          rw [← Int.cast_natCast, this, Int.cast_neg]
        simp [hneg, hq]
      · have : ((z.natAbs : Nat) : Int) = z := by omega
        have hq : ((z.natAbs : Nat) : ℚ) = (z : ℚ) := by
          rw [← Int.cast_natCast, this]
        simp [not_lt.2 hpos, hq]
    obtain ⟨q, e1, hr, hc⟩ := round_spec (decide (z < 0)) z.natAbs e _ hv h
    exact ⟨_, q, e1, hr, hc⟩

theorem toRat_product (na : Bool) (ma : Nat) (ea : Int) (nb : Bool) (mb : Nat) (eb : Int) :
    toRat (finite (xor na nb) (ma * mb) (ea + eb)) =
      toRat (finite na ma ea) * toRat (finite nb mb eb) := by
  rw [toRat, toRat, toRat, zpow_add₀ (by norm_num : (2 : ℚ) ≠ 0)]
  push_cast
  cases na <;> cases nb <;> simp <;> ring

theorem toRat_c1_8 : toRat c1_8 = 9 / 5 + 1 / (5 * 2 ^ 52) := by
  norm_num [toRat, c1_8]

theorem toRat_c32 : toRat c32 = 32 := by
  norm_num [toRat, c32]

theorem toRat_c273 : toRat c273 = 273 := by
  norm_num [toRat, c273]

end F64

namespace fmt

theorem roundHalfEven_close (num den : Nat) (hden : 0 < den) :
    |(roundHalfEven num den : ℚ) - (num : ℚ) / den| ≤ 1 / 2 := by
  have hdm := Nat.div_add_mod num den
  have hr := Nat.mod_lt num hden
  have hd : (0 : ℚ) < den := by exact_mod_cast hden
  have hnum : (num : ℚ) = den * (num / den : Nat) + (num % den : Nat) := by
    exact_mod_cast hdm.symm
  have hx : (num : ℚ) / den = (num / den : Nat) + ((num % den : Nat) : ℚ) / den := by
    rw [hnum]
    field_simp
    ring
  have hr0 : (0 : ℚ) ≤ ((num % den : Nat) : ℚ) / den :=
    div_nonneg (Nat.cast_nonneg _) hd.le
  have hr1 : ((num % den : Nat) : ℚ) / den ≤ 1 := by
    rw [div_le_one hd]
    exact_mod_cast hr.le
  rw [hx, abs_le]
  unfold roundHalfEven
  simp only
  split
  · next hc =>
    have h2 : (1 : ℚ) / 2 ≤ ((num % den : Nat) : ℚ) / den := by
      rw [le_div_iff₀ hd]
      have : (den : ℚ) ≤ 2 * (num % den : Nat) := by
        rcases hc with hc | ⟨hc, _⟩
        · exact_mod_cast hc.le
        · exact_mod_cast hc.ge
      linarith
    push_cast
    constructor <;> linarith
  · next hc =>
    have h2 : ((num % den : Nat) : ℚ) / den ≤ 1 / 2 := by
      rw [div_le_iff₀ hd]
      have : ¬ den < 2 * (num % den) := fun h => hc (Or.inl h)
      have : 2 * ((num % den : Nat) : ℚ) ≤ den := by exact_mod_cast not_lt.1 this
      linarith
    constructor <;> linarith

theorem tenths_close (m : Nat) (e : Int) :
    |(tenths m e : ℚ) / 10 - (m : ℚ) * 2 ^ e| ≤ 1 / 20 := by
  unfold tenths
  split
  · next he =>
    have : (2 : ℚ) ^ e = 2 ^ e.toNat := by
      rw [← zpow_natCast]
      congr 1
      omega
    rw [this]
    push_cast
    rw [show (m : ℚ) * 2 ^ e.toNat * 10 / 10 - (m : ℚ) * 2 ^ e.toNat = 0 by ring]
    norm_num
  · next he =>
    have hden : 0 < 2 ^ (-e).toNat := Nat.pos_of_ne_zero (pow_ne_zero _ (by decide))
    have hc := roundHalfEven_close (m * 10) (2 ^ (-e).toNat) hden
    have hp : (2 : ℚ) ^ e = 1 / ((2 ^ (-e).toNat : Nat) : ℚ) := by
      push_cast
      rw [← zpow_natCast, one_div, ← zpow_neg]
      congr 1
      omega
    rw [hp]
    obtain ⟨D, hD⟩ : ∃ D : ℚ, ((2 ^ (-e).toNat : Nat) : ℚ) = D := ⟨_, rfl⟩
    obtain ⟨R, hR⟩ : ∃ R : ℚ, (roundHalfEven (m * 10) (2 ^ (-e).toNat) : ℚ) = R := ⟨_, rfl⟩
    rw [hD, hR] at hc
    rw [hD, hR]
    have h10 : ((m * 10 : Nat) : ℚ) = (m : ℚ) * 10 := by push_cast; ring
    rw [h10] at hc
    rw [show R / 10 - (m : ℚ) * (1 / D) = (R - (m : ℚ) * 10 / D) / 10 by ring, abs_div,
      abs_of_pos (by norm_num : (0 : ℚ) < 10), div_le_iff₀ (by norm_num)]
    linarith

/-- A finite float within `d` of `v` is printed as a numeral within `1/20 + d` of `v`. -/
theorem Sprintf1f_close (neg : Bool) (m : Nat) (e : Int) (v d : ℚ)
    (h : |F64.toRat (.finite neg m e) - v| ≤ d) :
    ∃ sneg : Bool, ∃ n : Nat, Sprintf1f (.finite neg m e) = fixed1 sneg n ∧
      |fixed1Value sneg n - v| ≤ 1 / 20 + d := by
  refine ⟨neg, tenths m e, rfl, ?_⟩
  have h1 : |fixed1Value neg (tenths m e) - F64.toRat (.finite neg m e)| ≤ 1 / 20 := by
    rw [fixed1Value, F64.toRat, show (if neg then (-1 : ℚ) else 1) * ((tenths m e : ℚ) / 10) -
        (if neg then (-1 : ℚ) else 1) * (m : ℚ) * 2 ^ e =
      (if neg then (-1 : ℚ) else 1) * ((tenths m e : ℚ) / 10 - (m : ℚ) * 2 ^ e) by ring,
      abs_mul, F64.abs_sign, one_mul]
    exact tenths_close m e
  calc |fixed1Value neg (tenths m e) - v|
      = |(fixed1Value neg (tenths m e) - F64.toRat (.finite neg m e)) +
          (F64.toRat (.finite neg m e) - v)| := by ring_nf
    _ ≤ |fixed1Value neg (tenths m e) - F64.toRat (.finite neg m e)| +
          |F64.toRat (.finite neg m e) - v| := abs_add _ _
    _ ≤ 1 / 20 + d := add_le_add h1 h

end fmt

/-! ## The unit conversions -/

namespace Tempservice

open F64

theorem small_facts : (2 : ℚ) ^ 1000 * 8 + 64 ≤ 2 ^ (1023 : ℤ) ∧ (0 : ℚ) ≤ 1 / 2 ^ 1075 ∧
    (1 : ℚ) / 2 ^ 1075 ≤ 1 / 2 ^ 60 := by
  refine ⟨?_, by positivity, ?_⟩
  · rw [show (1023 : ℤ) = ((1023 : ℕ) : ℤ) by norm_num, zpow_natCast,
      show (2 : ℚ) ^ 1023 = 2 ^ 1000 * 2 ^ 23 by rw [← pow_add]]
    have : (1 : ℚ) ≤ 2 ^ 1000 := one_le_pow₀ (by norm_num)
    norm_num
  · apply one_div_le_one_div_of_le (by positivity)
    exact pow_le_pow_right₀ (by norm_num) (by norm_num)

theorem kelvin_close (neg : Bool) (m : Nat) (e : Int)
    (hc : |toRat (.finite neg m e)| ≤ 2 ^ 1000) :
    ∃ sneg : Bool, ∃ n : Nat,
      ConvertCelsiusToKelvin (.finite neg m e) = fmt.fixed1 sneg n ∧
      |fmt.fixed1Value sneg n - (toRat (.finite neg m e) + 273)| ≤
        1 / 20 + (|toRat (.finite neg m e)| + 274) / 2 ^ 53 := by
  obtain ⟨hB, hη0, hη1⟩ := small_facts
  obtain ⟨C, hC⟩ : ∃ C, toRat (.finite neg m e) = C := ⟨_, rfl⟩
  have hsum : |toRat (.finite neg m e) + toRat (.finite false 273 0)| < 2 ^ (1023 : ℤ) := by
    have h273 : toRat (.finite false 273 0) = 273 := toRat_c273
    rw [h273, hC]
    rw [hC] at hc
    have := abs_add C 273
    rw [abs_of_pos (by norm_num : (0 : ℚ) < 273)] at this
    have hp : (0 : ℚ) ≤ 2 ^ 1000 := by positivity
    linarith
  obtain ⟨n, q, e1, hr, herr⟩ := addExact_spec neg m e false 273 0 hsum
  have h273 : toRat (.finite false 273 0) = 273 := toRat_c273
  rw [h273] at herr
  have hdef : ConvertCelsiusToKelvin (.finite neg m e) = fmt.Sprintf1f (.finite n q e1) := by
    simp only [ConvertCelsiusToKelvin, F64.add, c273, hr]
  rw [hdef]
  obtain ⟨sneg, k, hk, hkc⟩ := fmt.Sprintf1f_close n q e1 _ _ herr
  refine ⟨sneg, k, hk, le_trans hkc ?_⟩
  rw [hC] at hc ⊢
  have := abs_add C 273
  rw [abs_of_pos (by norm_num : (0 : ℚ) < 273)] at this
  have hdiv : |C + 273| / 2 ^ 53 ≤ (|C| + 273) / 2 ^ 53 :=
    div_le_div_of_nonneg_right this (by positivity)
  have hη : (1 : ℚ) / 2 ^ 1075 ≤ 1 / 2 ^ 53 := by
    apply one_div_le_one_div_of_le (by positivity)
    exact pow_le_pow_right₀ (by norm_num) (by norm_num)
  have : (|C| + 274) / 2 ^ 53 = (|C| + 273) / 2 ^ 53 + 1 / 2 ^ 53 := by ring
  linarith

theorem fahrenheit_close (fused neg : Bool) (m : Nat) (e : Int)
    (hc : |toRat (.finite neg m e)| ≤ 2 ^ 1000) :
    ∃ sneg : Bool, ∃ n : Nat,
      ConvertCelsiusToFahrenheit fused (.finite neg m e) = fmt.fixed1 sneg n ∧
      |fmt.fixed1Value sneg n - (toRat (.finite neg m e) * (9 / 5) + 32)| ≤
        1 / 20 + (|toRat (.finite neg m e)| + 8) / 2 ^ 50 := by
  obtain ⟨hB, hη0, hη1⟩ := small_facts
  have hd : toRat (.finite false 8106479329266893 (-52)) = 9 / 5 + 1 / (5 * 2 ^ 52) :=
    toRat_c1_8
  have h32 : toRat (.finite false 32 0) = 32 := toRat_c32
  obtain ⟨C, hC⟩ : ∃ C, toRat (.finite neg m e) = C := ⟨_, rfl⟩
  obtain ⟨a, ha⟩ : ∃ a, |C| = a := ⟨_, rfl⟩
  have ha0 : 0 ≤ a := ha ▸ abs_nonneg C
  rw [hC] at hc
  rw [ha] at hc
  -- the exact product
  have hprod : |C * (9 / 5 + 1 / (5 * 2 ^ 52))| = a * (9 / 5 + 1 / (5 * 2 ^ 52)) := by
    rw [abs_mul, ha, abs_of_pos (by positivity)]
  have hpk : |C * (1 / (5 * 2 ^ 52))| = a * (1 / (5 * 2 ^ 52)) := by
    rw [abs_mul, ha, abs_of_pos (by positivity)]
  obtain ⟨B, hBdef⟩ : ∃ B : ℚ, (2 : ℚ) ^ 1000 = B := ⟨_, rfl⟩
  obtain ⟨B2, hB2def⟩ : ∃ B2 : ℚ, (2 : ℚ) ^ (1023 : ℤ) = B2 := ⟨_, rfl⟩
  obtain ⟨η, hηdef⟩ : ∃ η : ℚ, (1 : ℚ) / 2 ^ 1075 = η := ⟨_, rfl⟩
  rw [hBdef] at hc hB
  rw [hB2def] at hB
  rw [hηdef] at hη0 hη1
  cases fused with
  | false =>
    have hmul : |toRat (.finite neg m e) * toRat (.finite false 8106479329266893 (-52))| <
        2 ^ (1023 : ℤ) := by
      rw [hd, hC, hprod, hB2def]
      norm_num at hB ⊢
      nlinarith
    obtain ⟨n1, q1, e1, hr1, herr1⟩ := mul_spec neg m e false 8106479329266893 (-52) hmul
    rw [hd, hC, hprod, hηdef] at herr1
    obtain ⟨T, hT⟩ : ∃ T, toRat (.finite n1 q1 e1) = T := ⟨_, rfl⟩
    rw [hT] at herr1
    have hTabs : |T| ≤ a * 4 + η := by
      have h1 := abs_sub_abs_le_abs_sub T (C * (9 / 5 + 1 / (5 * 2 ^ 52)))
      rw [hprod] at h1
      norm_num at herr1 h1 ⊢
      linarith
    have hadd : |toRat (.finite n1 q1 e1) + toRat (.finite false 32 0)| < 2 ^ (1023 : ℤ) := by
      rw [hT, h32, hB2def]
      have := abs_add T 32
      rw [abs_of_pos (by norm_num : (0 : ℚ) < 32)] at this
      norm_num at hη1
      linarith
    obtain ⟨n2, q2, e2, hr2, herr2⟩ := addExact_spec n1 q1 e1 false 32 0 hadd
    rw [hT, h32, hηdef] at herr2
    have hdef : ConvertCelsiusToFahrenheit false (.finite neg m e) =
        fmt.Sprintf1f (.finite n2 q2 e2) := by
      simp only [ConvertCelsiusToFahrenheit, c1_8, c32, hr1, F64.add, hr2]
      rfl
    rw [hdef]
    obtain ⟨F, hF⟩ : ∃ F, toRat (.finite n2 q2 e2) = F := ⟨_, rfl⟩
    rw [hF] at herr2
    have hclose : |toRat (.finite n2 q2 e2) - (C * (9 / 5) + 32)| ≤ (a + 8) / 2 ^ 50 := by
      rw [hF]
      have hT32 := abs_add T 32
      rw [abs_of_pos (by norm_num : (0 : ℚ) < 32)] at hT32
      have e1 : F - (C * (9 / 5) + 32) =
          (F - (T + 32)) + (T - C * (9 / 5 + 1 / (5 * 2 ^ 52))) + C * (1 / (5 * 2 ^ 52)) := by
        ring
      rw [e1]
      have t1 := abs_add ((F - (T + 32)) + (T - C * (9 / 5 + 1 / (5 * 2 ^ 52))))
        (C * (1 / (5 * 2 ^ 52)))
      have t2 := abs_add (F - (T + 32)) (T - C * (9 / 5 + 1 / (5 * 2 ^ 52)))
      rw [hpk] at t1
      norm_num at herr1 herr2 hη1 t1 t2 hTabs ⊢
      linarith
    obtain ⟨sneg, k, hk, hkc⟩ := fmt.Sprintf1f_close n2 q2 e2 _ _ hclose
    refine ⟨sneg, k, hk, ?_⟩
    rw [hC, ha]
    exact hkc
  | true =>
    have hdefma : fma (.finite neg m e) c1_8 c32 =
        addExact (xor neg false) (m * 8106479329266893) (e + -52) false 32 0 := rfl
    have hP : toRat (.finite (xor neg false) (m * 8106479329266893) (e + -52)) =
        C * (9 / 5 + 1 / (5 * 2 ^ 52)) := by
      rw [toRat_product, hd, hC]
    have hadd : |toRat (.finite (xor neg false) (m * 8106479329266893) (e + -52)) +
        toRat (.finite false 32 0)| < 2 ^ (1023 : ℤ) := by
      rw [hP, h32, hB2def]
      have := abs_add (C * (9 / 5 + 1 / (5 * 2 ^ 52))) 32
      rw [abs_of_pos (by norm_num : (0 : ℚ) < 32), hprod] at this
      norm_num at this ⊢
      linarith
    obtain ⟨n2, q2, e2, hr2, herr2⟩ :=
      addExact_spec (xor neg false) (m * 8106479329266893) (e + -52) false 32 0 hadd
    rw [hP, h32, hηdef] at herr2
    have hdef : ConvertCelsiusToFahrenheit true (.finite neg m e) =
        fmt.Sprintf1f (.finite n2 q2 e2) := by
      simp only [ConvertCelsiusToFahrenheit, hdefma, hr2]
      rfl
    rw [hdef]
    obtain ⟨F, hF⟩ : ∃ F, toRat (.finite n2 q2 e2) = F := ⟨_, rfl⟩
    rw [hF] at herr2
    have hclose : |toRat (.finite n2 q2 e2) - (C * (9 / 5) + 32)| ≤ (a + 8) / 2 ^ 50 := by
      rw [hF]
      have hT32 := abs_add (C * (9 / 5 + 1 / (5 * 2 ^ 52))) 32
      rw [abs_of_pos (by norm_num : (0 : ℚ) < 32), hprod] at hT32
      have e1 : F - (C * (9 / 5) + 32) =
          (F - (C * (9 / 5 + 1 / (5 * 2 ^ 52)) + 32)) + C * (1 / (5 * 2 ^ 52)) := by
        ring
      rw [e1]
      have t1 := abs_add (F - (C * (9 / 5 + 1 / (5 * 2 ^ 52)) + 32)) (C * (1 / (5 * 2 ^ 52)))
      rw [hpk] at t1
      norm_num at herr2 hη1 t1 hT32 ⊢
      linarith
    obtain ⟨sneg, k, hk, hkc⟩ := fmt.Sprintf1f_close n2 q2 e2 _ _ hclose
    refine ⟨sneg, k, hk, ?_⟩
    rw [hC, ha]
    exact hkc

end Tempservice

namespace Tempservice

set_option maxRecDepth 100000 in
/-- C7 (as amended): for every finite Celsius reading `c` of magnitude at most `2 ^ 1000`,
`ConvertCelsiusToFahrenheit(c)` is a numeral with exactly one decimal place whose value is
within `1/20 + (|c| + 8) / 2 ^ 50` of `c × 1.8 + 32`, whether or not the compiler fuses the
product and the sum, and `ConvertCelsiusToKelvin(c)` is a numeral with exactly one decimal
place whose value is within `1/20 + (|c| + 274) / 2 ^ 53` of `c + 273`.  The readings 0, 100
and -40 give `32.0`, `212.0`, `-40.0` and `273.0`, `373.0`, `233.0`. -/
theorem Convert_one_decimal :
    (∀ (fused neg : Bool) (m : Nat) (e : Int),
        |F64.toRat (.finite neg m e)| ≤ 2 ^ 1000 →
        (∃ sneg : Bool, ∃ n : Nat,
          ConvertCelsiusToFahrenheit fused (.finite neg m e) = fmt.fixed1 sneg n ∧
          |fmt.fixed1Value sneg n - Spec.fahrenheit (F64.toRat (.finite neg m e))| ≤
            1 / 20 + (|F64.toRat (.finite neg m e)| + 8) / 2 ^ 50) ∧
        ∃ sneg : Bool, ∃ n : Nat,
          ConvertCelsiusToKelvin (.finite neg m e) = fmt.fixed1 sneg n ∧
          |fmt.fixed1Value sneg n - Spec.kelvin (F64.toRat (.finite neg m e))| ≤
            1 / 20 + (|F64.toRat (.finite neg m e)| + 274) / 2 ^ 53) ∧
      (∀ fused : Bool,
        ConvertCelsiusToFahrenheit fused (F64.ofInt 0) = "32.0" ∧
        ConvertCelsiusToFahrenheit fused (F64.ofInt 100) = "212.0" ∧
        ConvertCelsiusToFahrenheit fused (F64.ofInt (-40)) = "-40.0") ∧
      ConvertCelsiusToKelvin (F64.ofInt 0) = "273.0" ∧
      ConvertCelsiusToKelvin (F64.ofInt 100) = "373.0" ∧
      ConvertCelsiusToKelvin (F64.ofInt (-40)) = "233.0" := by
  refine ⟨?_, ?_, by decide, by decide, by decide⟩
  · intro fused neg m e hc
    exact ⟨fahrenheit_close fused neg m e hc, kelvin_close neg m e hc⟩
  · intro fused
    cases fused <;> decide

theorem Convert_one_decimal_witness :
    (∃ sneg : Bool, ∃ n : Nat,
        ConvertCelsiusToFahrenheit false (.finite false 7121316910779597 (-48)) =
          fmt.fixed1 sneg n ∧
        |fmt.fixed1Value sneg n -
            Spec.fahrenheit (F64.toRat (.finite false 7121316910779597 (-48)))| ≤
          1 / 20 + (|F64.toRat (.finite false 7121316910779597 (-48))| + 8) / 2 ^ 50) ∧
      ∃ sneg : Bool, ∃ n : Nat,
        ConvertCelsiusToKelvin (.finite false 7121316910779597 (-48)) = fmt.fixed1 sneg n ∧
        |fmt.fixed1Value sneg n -
            Spec.kelvin (F64.toRat (.finite false 7121316910779597 (-48)))| ≤
          1 / 20 + (|F64.toRat (.finite false 7121316910779597 (-48))| + 274) / 2 ^ 53 :=
  Convert_one_decimal.1 false false 7121316910779597 (-48)
    (by norm_num [F64.toRat, abs_of_pos])

set_option maxRecDepth 1000000 in
set_option exponentiation.threshold 2000 in
/-- C7, the claim as stated fails.  The reading `1.2500000000000002` is a `float64`; the
code prints `34.2` and `274.2` for it, fused or not, while the exact values
`c × 1.8 + 32` and `c + 273` lie more than `1/20` above these numerals and less than `1/20`
below `34.3` and `274.3`.  For the largest finite `float64` the product overflows and the
code prints `+Inf`, which has no decimal place. -/
theorem Convert_exact_counterexample :
    F64.IsFloat64 F64.c1_25_up = true ∧
      (∀ fused : Bool, ConvertCelsiusToFahrenheit fused F64.c1_25_up = "34.2") ∧
      1 / 20 < |(342 : ℚ) / 10 - Spec.fahrenheit (F64.toRat F64.c1_25_up)| ∧
      |(343 : ℚ) / 10 - Spec.fahrenheit (F64.toRat F64.c1_25_up)| < 1 / 20 ∧
      ConvertCelsiusToKelvin F64.c1_25_up = "274.2" ∧
      1 / 20 < |(2742 : ℚ) / 10 - Spec.kelvin (F64.toRat F64.c1_25_up)| ∧
      |(2743 : ℚ) / 10 - Spec.kelvin (F64.toRat F64.c1_25_up)| < 1 / 20 ∧
      F64.IsFloat64 F64.maxFloat64 = true ∧
      ∀ fused : Bool, ConvertCelsiusToFahrenheit fused F64.maxFloat64 = "+Inf" := by
  have hf : Spec.fahrenheit (F64.toRat F64.c1_25_up) = 137 / 4 + 9 / (5 * 2 ^ 52) := by
    norm_num [Spec.fahrenheit, F64.toRat, F64.c1_25_up]
  have hk : Spec.kelvin (F64.toRat F64.c1_25_up) = 1097 / 4 + 1 / 2 ^ 52 := by
    norm_num [Spec.kelvin, F64.toRat, F64.c1_25_up]
  rw [hf, hk]
  refine ⟨by decide, ?_, ?_, ?_, by decide, ?_, ?_, by decide, ?_⟩
  · intro fused
    cases fused <;> decide
  · rw [lt_abs]
    right
    norm_num
  · rw [abs_lt]
    constructor <;> norm_num
  · rw [lt_abs]
    right
    norm_num
  · rw [abs_lt]
    constructor <;> norm_num
  · intro fused
    cases fused <;> decide

end Tempservice
